import Mathlib

/-!
# Verification of the Antigravity multi-account OAuth plugin

This file gives a shallow embedding, in Lean 4, of the core logic of the
opencode-antigravity-multi-auth repository:

* the credential-set storage encoding (parse/format of the multi-account
  refresh string),
* the `AccountManager` (round-robin selection, rate-limit bookkeeping,
  minimum wait time),
* the per-call dispatch loop over the endpoint fallback chain (429 handling,
  endpoint retry on 403/404/5xx),
* the response normalizer `transformAntigravityResponse` (error-path
  handling, retry-header block, exception fallback), and
* the incremental SSE transform stream (chunk buffering on the blank-line
  frame delimiter).

Times (`Date.now()`, windows) are modelled as `Int` (JS numbers are exact on
these magnitudes); header maps as association lists with lower-cased keys;
JSON values as an inductive `Json` type.  External collaborators that are not
part of this repository's sources (the text decoder, the JSON runtime
helpers from request-helpers.ts, the upstream fetch) appear as explicit
parameters or as inputs of the modelled functions.
-/

namespace Antigravity

/-! ## Credential records and the storage encoding

The auth module (parse/format of refresh strings) is not part of the sources
available here; it is modelled from the spec.  `RefreshParts` is the
per-credential record: refresh token, project id, and an optional managed
project id. -/

/-- Credential record carried per account (spec section 3). -/
structure RefreshParts where
  refreshToken : String
  projectId : String
  managedProjectId : Option String
deriving DecidableEq, Repr, Inhabited

/-- Ordered sequence of credential records ("CredentialSet" of the spec). -/
structure MultiAccountRefreshParts where
  accounts : List RefreshParts
deriving DecidableEq, Repr, Inhabited

/-- Prepend an element onto the first group of a split result. -/
def consHead {α : Type} (c : α) : List (List α) → List (List α)
  | [] => [[c]]
  | p :: ps => (c :: p) :: ps

/-- Greedy left-to-right split of a list on a single separator element
(the semantics of JavaScript's `String.prototype.split` for a one-element
separator, used at both levels of the storage grammar). -/
def splitSep {α : Type} [DecidableEq α] (sep : α) : List α → List (List α)
  | [] => [[]]
  | c :: rest => if c = sep then [] :: splitSep sep rest else consHead c (splitSep sep rest)

/-- Modelled from the spec: the fields of one credential record, in storage
order; the managed project id is omitted when absent (the tests show
`format` of a record without it yields exactly `"r1|p1"`). -/
def recordFields (p : RefreshParts) : List String :=
  [p.refreshToken, p.projectId] ++ (match p.managedProjectId with
    | some m => [m]
    | none => [])

/-- Join a list of groups, inserting a single separator element between
consecutive groups (the join side of the storage grammar). -/
def interSep {α : Type} (sep : α) : List (List α) → List α
  | [] => []
  | p :: ps =>
    match ps with
    | [] => p
    | _ :: _ => p ++ sep :: interSep sep ps

/-- Modelled from the spec: serialize the ordered credential sequence into a
single string, `'|'` between fields, `"||"` between records (equivalently:
all fields, with an empty marker field between records, joined by `'|'`). -/
def formatMultiAccountRefresh (m : MultiAccountRefreshParts) : String :=
  ⟨interSep '|' ((interSep "" (m.accounts.map recordFields)).map String.data)⟩

/-- Modelled from the spec: recognize one record from its field list; a
record with an empty refresh token is not recognized. -/
def parseRecord : List String → Option RefreshParts
  | [] => none
  | [r] => if r = "" then none else some ⟨r, "", none⟩
  | [r, p] => if r = "" then none else some ⟨r, p, none⟩
  | r :: p :: m :: _ => if r = "" then none else some ⟨r, p, if m = "" then none else some m⟩

/-- Modelled from the spec: parse the storage string back into the ordered
credential sequence: split into fields on `'|'`, group fields into records at
the empty marker fields (the `"||"` record separators), keep the recognized
records. -/
def parseMultiAccountRefresh (s : String) : MultiAccountRefreshParts :=
  ⟨(splitSep "" ((splitSep '|' s.data).map (fun cs => (⟨cs⟩ : String)))).filterMap parseRecord⟩

/-! Round-trip infrastructure for the storage encoding. -/

theorem splitSep_of_not_mem {α : Type} [DecidableEq α] {sep : α} {p : List α}
    (h : sep ∉ p) : splitSep sep p = [p] := by
  induction p with
  | nil => rfl
  | cons c rest ih =>
    have hc : ¬ c = sep := fun hc => h (hc ▸ List.mem_cons_self c rest)
    have hrest : sep ∉ rest := fun hm => h (List.mem_cons_of_mem c hm)
    simp [splitSep, hc, ih hrest, consHead]

theorem splitSep_append_sep {α : Type} [DecidableEq α] {sep : α} {p t : List α}
    (h : sep ∉ p) : splitSep sep (p ++ sep :: t) = p :: splitSep sep t := by
  induction p with
  | nil => simp [splitSep]
  | cons c rest ih =>
    have hc : ¬ c = sep := fun hc => h (hc ▸ List.mem_cons_self c rest)
    have hrest : sep ∉ rest := fun hm => h (List.mem_cons_of_mem c hm)
    simp [splitSep, hc, ih hrest, consHead]

theorem splitSep_interSep {α : Type} [DecidableEq α] (sep : α) :
    ∀ (parts : List (List α)), parts ≠ [] → (∀ p ∈ parts, sep ∉ p) →
      splitSep sep (interSep sep parts) = parts
  | [], h, _ => absurd rfl h
  | [p], _, hfree => by
      simpa [interSep] using splitSep_of_not_mem (hfree p (List.mem_singleton.mpr rfl))
  | p :: q :: parts, _, hfree => by
      have hp : sep ∉ p := hfree p (List.mem_cons_self _ _)
      have ih := splitSep_interSep sep (q :: parts) (List.cons_ne_nil q parts)
        (fun r hr => hfree r (List.mem_cons_of_mem p hr))
      calc splitSep sep (interSep sep (p :: q :: parts))
      _ = splitSep sep (p ++ sep :: interSep sep (q :: parts)) := by rw [interSep]
      _ = p :: splitSep sep (interSep sep (q :: parts)) := splitSep_append_sep hp
      _ = p :: q :: parts := by rw [ih]

theorem mem_interSep {α : Type} {sep : α} :
    ∀ {parts : List (List α)} {x : α}, x ∈ interSep sep parts →
      (∃ p ∈ parts, x ∈ p) ∨ x = sep
  | [], x, hx => by simp [interSep] at hx
  | [p], x, hx => by
      simp only [interSep] at hx
      exact Or.inl ⟨p, List.mem_singleton.mpr rfl, hx⟩
  | p :: q :: parts, x, hx => by
      rw [interSep] at hx
      rcases List.mem_append.mp hx with hp | hrest
      · exact Or.inl ⟨p, List.mem_cons_self _ _, hp⟩
      · rcases List.mem_cons.mp hrest with hsep | htail
        · exact Or.inr hsep
        · rcases mem_interSep htail with ⟨r, hr, hxr⟩ | hs
          · exact Or.inl ⟨r, List.mem_cons_of_mem p hr, hxr⟩
          · exact Or.inr hs

theorem interSep_map_recordFields_ne_nil :
    ∀ {seq : List RefreshParts}, seq ≠ [] → interSep "" (seq.map recordFields) ≠ []
  | [], h, _ => h rfl
  | [p], _, h => by simp [interSep, recordFields] at h
  | p :: q :: seq, _, h => by simp [interSep, recordFields] at h

/-- Field sanity used by the (amended) round-trip law: non-empty and free of
the `'|'` separator character. -/
def fieldOk (f : String) : Bool :=
  decide (f ≠ "") && decide ('|' ∉ f.data)

/-- Record sanity: all present fields satisfy `fieldOk`. -/
def recordOk (p : RefreshParts) : Bool :=
  fieldOk p.refreshToken && fieldOk p.projectId &&
    (match p.managedProjectId with
      | some m => fieldOk m
      | none => true)

theorem fieldOk_iff {f : String} : fieldOk f = true ↔ f ≠ "" ∧ '|' ∉ f.data := by
  simp [fieldOk]

theorem recordOk_spec {p : RefreshParts} (hp : recordOk p = true) :
    fieldOk p.refreshToken = true ∧ fieldOk p.projectId = true ∧
      ∀ m, p.managedProjectId = some m → fieldOk m = true := by
  obtain ⟨rt, pid, mp⟩ := p
  unfold recordOk at hp
  cases mp with
  | none =>
    simp only [Bool.and_eq_true] at hp
    exact ⟨hp.1.1, hp.1.2, fun m hm => Option.noConfusion hm⟩
  | some m =>
    simp only [Bool.and_eq_true] at hp
    exact ⟨hp.1.1, hp.1.2, fun m' hm' => (Option.some.inj hm') ▸ hp.2⟩

theorem recordFields_field_ok {p : RefreshParts} (hp : recordOk p = true) :
    ∀ f ∈ recordFields p, f ≠ "" ∧ '|' ∉ f.data := by
  intro f hf
  obtain ⟨hr, hpid, hm⟩ := recordOk_spec hp
  simp only [recordFields, List.mem_append, List.mem_cons, List.not_mem_nil, or_false,
    List.mem_singleton] at hf
  rcases hf with (rfl | rfl) | hf
  · exact fieldOk_iff.mp hr
  · exact fieldOk_iff.mp hpid
  · cases hmp : p.managedProjectId with
    | none => rw [hmp] at hf; simp at hf
    | some m =>
      rw [hmp] at hf
      simp only [List.mem_singleton] at hf
      subst hf
      exact fieldOk_iff.mp (hm f hmp)

theorem parseRecord_recordFields {p : RefreshParts} (hp : recordOk p = true) :
    parseRecord (recordFields p) = some p := by
  obtain ⟨hr, _, hm⟩ := recordOk_spec hp
  obtain ⟨rt, pid, mp⟩ := p
  have hrne : rt ≠ "" := (fieldOk_iff.mp hr).1
  cases mp with
  | none => simp [recordFields, parseRecord, hrne]
  | some m =>
    have hmne : m ≠ "" := (fieldOk_iff.mp (hm m rfl)).1
    simp [recordFields, parseRecord, hrne, hmne]


theorem filterMap_parseRecord_map :
    ∀ (seq : List RefreshParts), (∀ p ∈ seq, recordOk p = true) →
      (seq.map recordFields).filterMap parseRecord = seq
  | [], _ => rfl
  | p :: rest, hok => by
      simp only [List.map_cons, List.filterMap_cons,
        parseRecord_recordFields (hok p (List.mem_cons_self _ _))]
      exact congrArg (p :: ·)
        (filterMap_parseRecord_map rest (fun q hq => hok q (List.mem_cons_of_mem p hq)))

/-- C4 (amended): parsing the formatted multi-account refresh string recovers
exactly the original ordered sequence, for any non-empty sequence of
credential records whose present fields are non-empty and contain no
separator character. -/
theorem parse_format_roundtrip (seq : List RefreshParts) (hne : seq ≠ [])
    (hok : ∀ p ∈ seq, recordOk p = true) :
    parseMultiAccountRefresh (formatMultiAccountRefresh ⟨seq⟩) = ⟨seq⟩ := by
  have charFree : ∀ g ∈ (interSep "" (seq.map recordFields)).map String.data, '|' ∉ g := by
    intro g hg
    rcases List.mem_map.mp hg with ⟨f, hf, rfl⟩
    rcases mem_interSep hf with ⟨rec, hrec, hfrec⟩ | hsep
    · rcases List.mem_map.mp hrec with ⟨p, hpseq, rfl⟩
      exact (recordFields_field_ok (hok p hpseq) f hfrec).2
    · subst hsep; simp
  have hfne : interSep "" (seq.map recordFields) ≠ [] := interSep_map_recordFields_ne_nil hne
  have hgne : (interSep "" (seq.map recordFields)).map String.data ≠ [] := by
    intro h
    exact hfne (List.map_eq_nil_iff.mp h)
  have recNoEmpty : ∀ rec ∈ seq.map recordFields, "" ∉ rec := by
    intro rec hrec hmem
    rcases List.mem_map.mp hrec with ⟨p, hpseq, rfl⟩
    exact (recordFields_field_ok (hok p hpseq) "" hmem).1 rfl
  unfold parseMultiAccountRefresh formatMultiAccountRefresh
  rw [show ((⟨interSep '|' ((interSep "" (seq.map recordFields)).map String.data)⟩ :
      String)).data = interSep '|' ((interSep "" (seq.map recordFields)).map String.data)
    from rfl]
  rw [splitSep_interSep '|' _ hgne charFree]
  rw [List.map_map]
  rw [show (fun cs => (⟨cs⟩ : String)) ∘ String.data = id from funext (fun s => rfl),
    List.map_id]
  rw [splitSep_interSep "" (seq.map recordFields)
    (fun h => hne (List.map_eq_nil_iff.mp h)) recNoEmpty]
  exact congrArg MultiAccountRefreshParts.mk (filterMap_parseRecord_map seq hok)

/-- Test vector from the repository's own test suite: a single legacy record
with all three fields. -/
example : parseMultiAccountRefresh "refresh1|proj1|managed1"
    = ⟨[⟨"refresh1", "proj1", some "managed1"⟩]⟩ := by decide

/-- Test vector from the repository's own test suite: three records. -/
example : parseMultiAccountRefresh "r1|p1||r2|p2||r3|p3|m3"
    = ⟨[⟨"r1", "p1", none⟩, ⟨"r2", "p2", none⟩, ⟨"r3", "p3", some "m3"⟩]⟩ := by decide

/-- Test vector from the repository's own test suite: format of two records. -/
example : formatMultiAccountRefresh ⟨[⟨"r1", "p1", none⟩, ⟨"r2", "p2", none⟩]⟩
    = "r1|p1||r2|p2" := by decide

/-- C4 counterexample: with only the claim's hypothesis (non-empty refresh
token), the round trip fails — a record with an empty project id and a
managed project id serializes to "r||m", which parses back as two records. -/
theorem parse_format_roundtrip_counterexample :
    parseMultiAccountRefresh (formatMultiAccountRefresh ⟨[⟨"r", "", some "m"⟩]⟩)
      ≠ ⟨[⟨"r", "", some "m"⟩]⟩ := by decide

/-- C4 witness: the amended round-trip law applied to a concrete two-record
sequence. -/
theorem parse_format_roundtrip_witness :
    parseMultiAccountRefresh (formatMultiAccountRefresh
        ⟨[⟨"r1", "p1", none⟩, ⟨"r2", "p2", some "m2"⟩]⟩)
      = ⟨[⟨"r1", "p1", none⟩, ⟨"r2", "p2", some "m2"⟩]⟩ :=
  parse_format_roundtrip [⟨"r1", "p1", none⟩, ⟨"r2", "p2", some "m2"⟩]
    (by decide) (by decide)

/-! ## AccountManager (src/plugin/accounts.ts)

A `ManagedAccount` mirrors the fields of the TypeScript interface; times are
`Int` milliseconds.  JavaScript object identity inside the accounts array is
modelled by list position: the in-place mutations of `getNext` become
functional updates at the corresponding positions. -/

/-- Runtime account record (interface ManagedAccount, accounts.ts lines 9-17). -/
structure Account where
  index : Nat
  parts : RefreshParts
  access : Option String
  expires : Option Int
  isRateLimited : Bool
  rateLimitResetTime : Int
  lastUsed : Int
deriving DecidableEq, Repr, Inhabited

/-- Mutable state of an AccountManager: its accounts array and the
round-robin cursor (accounts.ts lines 23-24). -/
structure AMState where
  accounts : List Account
  currentIndex : Nat
deriving DecidableEq, Repr, Inhabited

/-- Lazy rate-limit clearing inside the getNext filter (accounts.ts lines
68-72): an account whose window has strictly expired has its flag reset. -/
def clearExpired (now : Int) (a : Account) : Account :=
  if a.isRateLimited && decide (now > a.rateLimitResetTime) then
    { a with isRateLimited := false }
  else a

/-- Eligibility predicate of the getNext/getMinWaitTime filters: not
rate-limited, or the rate-limit window has strictly expired (accounts.ts
lines 67-74 and 180). -/
def eligibleNow (now : Int) (a : Account) : Bool :=
  !a.isRateLimited || decide (now > a.rateLimitResetTime)

theorem eligibleNow_eq_not_isRateLimited_clearExpired (now : Int) (a : Account) :
    eligibleNow now a = !(clearExpired now a).isRateLimited := by
  unfold eligibleNow clearExpired
  cases hrl : a.isRateLimited <;> by_cases hnow : now > a.rateLimitResetTime <;>
    simp [hrl, hnow]

/-- Positions (in the accounts array) of the accounts that pass the getNext
availability filter; JS keeps the object references, which we model by their
positions. -/
def availablePositions (now : Int) (accs : List Account) : List Nat :=
  (List.range accs.length).filter (fun i => eligibleNow now (accs.getD i default))

/-- Model of AccountManager.getNext (accounts.ts lines 65-89): clear expired
rate limits, filter the available accounts, pick round-robin by
currentIndex modulo the available count, advance the cursor and stamp
lastUsed; returns none (and keeps the cleared flags) when no account is
available. -/
def getNext (now : Int) (st : AMState) : Option Account × AMState :=
  let accs := st.accounts.map (clearExpired now)
  let avail := availablePositions now st.accounts
  match avail with
  | [] => (none, { st with accounts := accs })
  | _ :: _ =>
    let pos := avail.getD (st.currentIndex % avail.length) 0
    let chosen := { accs.getD pos default with lastUsed := now }
    (some chosen, { accounts := accs.set pos chosen, currentIndex := st.currentIndex + 1 })

/-- Model of AccountManager.markRateLimited (accounts.ts lines 94-97). -/
def markRateLimited (now retryAfterMs : Int) (a : Account) : Account :=
  { a with isRateLimited := true, rateLimitResetTime := now + retryAfterMs }

/-- Mark the account at a given position (JS passes the object reference). -/
def markAccountAt (st : AMState) (i : Nat) (now retryAfterMs : Int) : AMState :=
  { st with accounts := st.accounts.set i (markRateLimited now retryAfterMs
      (st.accounts.getD i default)) }

/-- Model of AccountManager.getMinWaitTime (accounts.ts lines 179-190): 0
when some account passes the availability filter, else the minimum of the
clamped remaining windows of the rate-limited accounts (0 when there are
none, mirroring the ternary guard around Math.min). -/
def getMinWaitTime (now : Int) (st : AMState) : Int :=
  if (st.accounts.filter (eligibleNow now)).length > 0 then 0
  else
    match (st.accounts.filter (fun a => a.isRateLimited)).map
        (fun a => max 0 (a.rateLimitResetTime - now)) with
    | [] => 0
    | w :: ws => ws.foldl min w

/-- Iterate getNext over a list of call times, collecting the results. -/
def runGetNext : List Int → AMState → List (Option Account) × AMState
  | [], st => ([], st)
  | t :: ts, st =>
    let (r, st') := getNext t st
    let (rs, st'') := runGetNext ts st'
    (r :: rs, st'')

/-! Round-robin law machinery (claim C1). -/

theorem clearExpired_id {now : Int} {a : Account} (h : a.isRateLimited = false) :
    clearExpired now a = a := by
  unfold clearExpired
  rw [h]
  simp

theorem map_clearExpired_id {now : Int} {accs : List Account}
    (h : ∀ a ∈ accs, a.isRateLimited = false) :
    accs.map (clearExpired now) = accs := by
  rw [List.map_congr_left (fun a ha => clearExpired_id (h a ha))]
  exact List.map_id accs

theorem getD_mem {accs : List Account} {i : Nat} (h : i < accs.length) :
    accs.getD i default ∈ accs := by
  rw [List.getD_eq_getElem _ _ h]
  exact List.getElem_mem h

theorem availablePositions_of_all_eligible {now : Int} {accs : List Account}
    (h : ∀ a ∈ accs, a.isRateLimited = false) :
    availablePositions now accs = List.range accs.length := by
  unfold availablePositions
  apply List.filter_eq_self.mpr
  intro i hi
  have hlt : i < accs.length := List.mem_range.mp hi
  unfold eligibleNow
  rw [h _ (getD_mem hlt)]
  simp

theorem getD_range {n i : Nat} (h : i < n) : (List.range n).getD i 0 = i := by
  rw [List.getD_eq_getElem _ _ (by simpa using h)]
  simp

/-- One getNext step when every account is eligible: the account at position
currentIndex mod length is returned (lastUsed stamped), the cursor advances. -/
theorem getNext_step {now : Int} {st : AMState}
    (hrl : ∀ a ∈ st.accounts, a.isRateLimited = false)
    (hne : st.accounts ≠ []) :
    getNext now st =
      (some { st.accounts.getD (st.currentIndex % st.accounts.length) default
              with lastUsed := now },
       { accounts := st.accounts.set (st.currentIndex % st.accounts.length)
           { st.accounts.getD (st.currentIndex % st.accounts.length) default
             with lastUsed := now },
         currentIndex := st.currentIndex + 1 }) := by
  have hlen : 0 < st.accounts.length := List.length_pos.mpr hne
  unfold getNext
  rw [map_clearExpired_id hrl, availablePositions_of_all_eligible hrl]
  have hmod : st.currentIndex % st.accounts.length < st.accounts.length :=
    Nat.mod_lt _ hlen
  cases hr : List.range st.accounts.length with
  | nil =>
    exfalso
    have := List.range_eq_nil.mp hr
    omega
  | cons x xs =>
    have hlenr : (x :: xs).length = st.accounts.length := by
      rw [← hr, List.length_range]
    simp only []
    rw [hlenr, ← hr, getD_range hmod]

theorem lastUsed_update_twice (a : Account) (s t : Int) :
    ({ ({ a with lastUsed := s }) with lastUsed := t }) = { a with lastUsed := t } := rfl

theorem lastUsed_update_isRateLimited (a : Account) (t : Int) :
    ({ a with lastUsed := t }).isRateLimited = a.isRateLimited := rfl

/-- Trace of getNext calls under an all-eligible pool: the k-th call returns
the account at position (currentIndex + k) mod N of the original pool, with
its lastUsed stamped by the k-th call time. -/
theorem runGetNext_spec :
    ∀ (times : List Int) (orig : List Account) (st : AMState),
      st.accounts.length = orig.length →
      (∀ i, i < orig.length →
        ∃ t, st.accounts.getD i default = { orig.getD i default with lastUsed := t }) →
      (∀ a ∈ orig, a.isRateLimited = false) → orig ≠ [] →
      ∀ k, k < times.length →
        (runGetNext times st).fst.getD k none =
          some { orig.getD ((st.currentIndex + k) % orig.length) default
                 with lastUsed := times.getD k 0 }
  | [], _, _, _, _, _, _, k, hk => absurd hk (by simp)
  | t :: ts, orig, st, hlen, hR, horl, hone, k, hk => by
    have hlenpos : 0 < orig.length := List.length_pos.mpr hone
    have hrl : ∀ a ∈ st.accounts, a.isRateLimited = false := by
      intro a ha
      obtain ⟨i, hi, rfl⟩ := List.getElem_of_mem ha
      have hi' : i < orig.length := by omega
      obtain ⟨u, hu⟩ := hR i hi'
      rw [← List.getD_eq_getElem _ default hi, hu, lastUsed_update_isRateLimited]
      exact horl _ (getD_mem hi')
    have hne : st.accounts ≠ [] := by
      intro h
      rw [h] at hlen
      simp at hlen
      omega
    have hstep := @getNext_step t st hrl hne
    have hmod : st.currentIndex % st.accounts.length < st.accounts.length := by
      apply Nat.mod_lt
      omega
    obtain ⟨u, hu⟩ := hR (st.currentIndex % st.accounts.length) (by omega)
    have hchosen :
        ({ st.accounts.getD (st.currentIndex % st.accounts.length) default
           with lastUsed := t })
        = { orig.getD ((st.currentIndex + 0) % orig.length) default with lastUsed := t } := by
      rw [hu, lastUsed_update_twice, Nat.add_zero, hlen]
    match k, hk with
    | 0, _ =>
      show (runGetNext (t :: ts) st).fst.getD 0 none = _
      unfold runGetNext
      rw [hstep]
      simp only [List.getD_cons_zero]
      rw [hchosen]
    | k' + 1, hk =>
      unfold runGetNext
      rw [hstep]
      simp only [List.getD_cons_succ]
      have hlen' : (st.accounts.set (st.currentIndex % st.accounts.length)
          { st.accounts.getD (st.currentIndex % st.accounts.length) default
            with lastUsed := t }).length = orig.length := by
        rw [List.length_set]
        exact hlen
      have hR' : ∀ i, i < orig.length →
          ∃ u', (st.accounts.set (st.currentIndex % st.accounts.length)
            { st.accounts.getD (st.currentIndex % st.accounts.length) default
              with lastUsed := t }).getD i default
            = { orig.getD i default with lastUsed := u' } := by
        intro i hi
        by_cases hipos : i = st.currentIndex % st.accounts.length
        · subst hipos
          refine ⟨t, ?_⟩
          rw [List.getD_eq_getElem _ _ (by rw [List.length_set]; omega)]
          rw [List.getElem_set_self (by omega)]
          rw [hu, lastUsed_update_twice]
        · obtain ⟨u', hu'⟩ := hR i hi
          refine ⟨u', ?_⟩
          by_cases hilen : i < st.accounts.length
          · rw [List.getD_eq_getElem _ _ (by rw [List.length_set]; omega),
              List.getElem_set_ne (fun h => hipos h.symm) (by omega),
              ← List.getD_eq_getElem _ default hilen]
            exact hu'
          · omega
      have ih := runGetNext_spec ts orig
        ⟨st.accounts.set (st.currentIndex % st.accounts.length)
          { st.accounts.getD (st.currentIndex % st.accounts.length) default
            with lastUsed := t }, st.currentIndex + 1⟩
        hlen' hR' horl hone k' (by simpa using Nat.lt_of_succ_lt_succ hk)
      simp only [] at ih
      rw [show (runGetNext ts
          ⟨st.accounts.set (st.currentIndex % st.accounts.length)
            { st.accounts.getD (st.currentIndex % st.accounts.length) default
              with lastUsed := t }, st.currentIndex + 1⟩).fst.getD k' none
          = some { orig.getD ((st.currentIndex + 1 + k') % orig.length) default
                   with lastUsed := ts.getD k' 0 } from ih]
      have : st.currentIndex + 1 + k' = st.currentIndex + (k' + 1) := by omega
      rw [this]

/-- Sample account used by concrete witness instances. -/
def sampleAccount (i : Nat) : Account :=
  ⟨i, ⟨"r", "p", none⟩, none, none, false, 0, 0⟩

/-- C1: on a pool whose N accounts are all eligible (none rate-limited, so
they stay eligible), successive getNext calls return the account at pool
position (currentIndex + k) mod N with its lastUsed stamped — hence N
successive calls visit each of the N accounts exactly once, in the pool's
stable cyclic order, before any repeat (the second conjunct is the
injectivity of the position map on the first N calls). -/
theorem getNext_roundRobin (st : AMState) (times : List Int)
    (hrl : ∀ a ∈ st.accounts, a.isRateLimited = false)
    (hne : st.accounts ≠ []) :
    (∀ k, k < times.length →
      (runGetNext times st).fst.getD k none =
        some { st.accounts.getD ((st.currentIndex + k) % st.accounts.length) default
               with lastUsed := times.getD k 0 })
    ∧ (∀ k₁ k₂, k₁ < st.accounts.length → k₂ < st.accounts.length →
        (st.currentIndex + k₁) % st.accounts.length
          = (st.currentIndex + k₂) % st.accounts.length → k₁ = k₂) := by
  constructor
  · intro k hk
    exact runGetNext_spec times st.accounts st rfl
      (fun i _ => ⟨(st.accounts.getD i default).lastUsed, rfl⟩) hrl hne k hk
  · intro k₁ k₂ h₁ h₂ heq
    have hmodeq : k₁ ≡ k₂ [MOD st.accounts.length] :=
      Nat.ModEq.add_left_cancel' st.currentIndex heq
    have := hmodeq
    unfold Nat.ModEq at this
    rw [Nat.mod_eq_of_lt h₁, Nat.mod_eq_of_lt h₂] at this
    exact this

/-- C1 witness: a fresh two-account manager, called twice, returns account 0
then account 1, each stamped with its call time. -/
theorem getNext_roundRobin_witness :
    (runGetNext [(5 : Int), 7] ⟨[sampleAccount 0, sampleAccount 1], 0⟩).fst.getD 0 none
      = some { ([sampleAccount 0, sampleAccount 1]).getD
                 ((0 + 0) % ([sampleAccount 0, sampleAccount 1]).length) default
               with lastUsed := ([(5 : Int), 7]).getD 0 0 }
    ∧ (runGetNext [(5 : Int), 7] ⟨[sampleAccount 0, sampleAccount 1], 0⟩).fst.getD 1 none
      = some { ([sampleAccount 0, sampleAccount 1]).getD
                 ((0 + 1) % ([sampleAccount 0, sampleAccount 1]).length) default
               with lastUsed := ([(5 : Int), 7]).getD 1 0 } :=
  ⟨(getNext_roundRobin ⟨[sampleAccount 0, sampleAccount 1], 0⟩ [5, 7]
      (by decide) (by decide)).1 0 (by decide),
   (getNext_roundRobin ⟨[sampleAccount 0, sampleAccount 1], 0⟩ [5, 7]
      (by decide) (by decide)).1 1 (by decide)⟩

/-- C2 (amended): after markRateLimited(a, delta) performed at time markedAt,
account a is in getNext's eligible set exactly when now is strictly past
markedAt + delta; in particular it is still excluded at the exact instant
now = markedAt + delta (the filter uses a strict comparison). -/
theorem markRateLimited_eligibility (st : AMState) (i : Nat) (markedAt delta : Int)
    (hi : i < st.accounts.length) (now : Int) :
    i ∈ availablePositions now (markAccountAt st i markedAt delta).accounts
      ↔ markedAt + delta < now := by
  unfold availablePositions markAccountAt
  simp only [List.mem_filter, List.mem_range, List.length_set]
  rw [List.getD_eq_getElem _ _ (by rw [List.length_set]; exact hi),
    List.getElem_set_self (by simpa using hi)]
  unfold eligibleNow markRateLimited
  simp [hi, Int.lt_iff_add_one_le]

/-- C2 counterexample: the claim as stated says the account is included again
at the exact instant now = markedAt + delta; on the code it is still
excluded there (both from the eligible positions and from getNext's result). -/
theorem markRateLimited_boundary_counterexample :
    (getNext 10 (markAccountAt ⟨[sampleAccount 0], 0⟩ 0 0 10)).fst = none
      ∧ 0 ∉ availablePositions 10 (markAccountAt ⟨[sampleAccount 0], 0⟩ 0 0 10).accounts := by
  decide

/-- C2 witness: a concrete marked account, queried strictly after the window. -/
theorem markRateLimited_eligibility_witness :
    0 ∈ availablePositions 8 (markAccountAt ⟨[sampleAccount 0], 0⟩ 0 3 4).accounts
      ↔ (3 : Int) + 4 < 8 :=
  markRateLimited_eligibility ⟨[sampleAccount 0], 0⟩ 0 3 4 (by decide) 8

/-! Minimum-wait machinery (claim C3). -/

theorem foldl_min_mem : ∀ (ws : List Int) (w : Int), ws.foldl min w ∈ w :: ws
  | [], w => by simp
  | v :: ws, w => by
    have ih := foldl_min_mem ws (min w v)
    rcases List.mem_cons.mp ih with h | h
    · rcases min_choice w v with hm | hm
      · rw [List.foldl_cons, h, hm]
        exact List.mem_cons_self _ _
      · rw [List.foldl_cons, h, hm]
        exact List.mem_cons_of_mem _ (List.mem_cons_self _ _)
    · rw [List.foldl_cons]
      exact List.mem_cons_of_mem _ (List.mem_cons_of_mem _ h)

theorem foldl_min_le : ∀ (ws : List Int) (w x : Int), x ∈ w :: ws → ws.foldl min w ≤ x
  | [], w, x, hx => by
    rw [List.mem_singleton.mp hx]
    simp
  | v :: ws, w, x, hx => by
    have ih := fun y hy => foldl_min_le ws (min w v) y hy
    have hmin : ws.foldl min (min w v) ≤ min w v := ih (min w v) (List.mem_cons_self _ _)
    rw [List.foldl_cons]
    rcases List.mem_cons.mp hx with h1 | hx'
    · rw [h1]
      exact le_trans hmin (min_le_left _ _)
    · rcases List.mem_cons.mp hx' with h2 | hx''
      · rw [h2]
        exact le_trans hmin (min_le_right _ _)
      · exact ih x (List.mem_cons_of_mem _ hx'')

theorem eligibleNow_false_spec {now : Int} {a : Account}
    (h : eligibleNow now a = false) :
    a.isRateLimited = true ∧ now ≤ a.rateLimitResetTime := by
  unfold eligibleNow at h
  rcases Bool.or_eq_false_iff.mp h with ⟨h1, h2⟩
  constructor
  · simpa using h1
  · have := of_decide_eq_false h2
    omega

/-- C3 (amended): getMinWaitTime is never negative; it returns 0 whenever at
least one account is currently eligible; and when no account is eligible
(and the pool is non-empty) it returns the minimum of
rateLimitResetTime - now over the rate-limited accounts — a value that is 0
exactly when some window expires at this very instant, so 0 is not exclusive
to the eligible case. -/
theorem getMinWaitTime_spec (now : Int) (st : AMState) :
    0 ≤ getMinWaitTime now st
    ∧ ((∃ a ∈ st.accounts, eligibleNow now a = true) → getMinWaitTime now st = 0)
    ∧ (st.accounts ≠ [] → (∀ a ∈ st.accounts, eligibleNow now a = false) →
        getMinWaitTime now st ∈ (st.accounts.filter (fun a => a.isRateLimited)).map
            (fun a => a.rateLimitResetTime - now)
          ∧ ∀ w ∈ (st.accounts.filter (fun a => a.isRateLimited)).map
              (fun a => a.rateLimitResetTime - now), getMinWaitTime now st ≤ w) := by
  unfold getMinWaitTime
  by_cases hav : (st.accounts.filter (eligibleNow now)).length > 0
  · rw [if_pos hav]
    refine ⟨le_refl 0, fun _ => rfl, fun hne hall => ?_⟩
    exfalso
    obtain ⟨a, ha⟩ := List.exists_mem_of_length_pos hav
    obtain ⟨hmem, helig⟩ := List.mem_filter.mp ha
    rw [hall a hmem] at helig
    exact Bool.false_ne_true helig
  · rw [if_neg hav]
    have hnil : st.accounts.filter (eligibleNow now) = [] :=
      List.length_eq_zero.mp (by omega)
    have hall : ∀ a ∈ st.accounts, eligibleNow now a = false := by
      intro a ha
      cases helig : eligibleNow now a with
      | false => rfl
      | true =>
        exfalso
        have : a ∈ st.accounts.filter (eligibleNow now) :=
          List.mem_filter.mpr ⟨ha, helig⟩
        rw [hnil] at this
        exact List.not_mem_nil a this
    have hmap : (st.accounts.filter (fun a => a.isRateLimited)).map
          (fun a => max 0 (a.rateLimitResetTime - now))
        = (st.accounts.filter (fun a => a.isRateLimited)).map
          (fun a => a.rateLimitResetTime - now) := by
      apply List.map_congr_left
      intro a ha
      have := (eligibleNow_false_spec (hall a (List.mem_filter.mp ha).1)).2
      exact max_eq_right (by omega)
    rw [hmap]
    have hnonneg : ∀ x ∈ (st.accounts.filter (fun a => a.isRateLimited)).map
        (fun a => a.rateLimitResetTime - now), 0 ≤ x := by
      intro x hx
      obtain ⟨a, ha, rfl⟩ := List.mem_map.mp hx
      have := (eligibleNow_false_spec (hall a (List.mem_filter.mp ha).1)).2
      omega
    cases hws : (st.accounts.filter (fun a => a.isRateLimited)).map
        (fun a => a.rateLimitResetTime - now) with
    | nil =>
      refine ⟨le_refl 0, fun hex => rfl, fun hne hall2 => ?_⟩
      exfalso
      have hfil : st.accounts.filter (fun a => a.isRateLimited) = st.accounts :=
        List.filter_eq_self.mpr (by
          intro a ha
          rw [(eligibleNow_false_spec (hall a ha)).1])
      rw [hfil] at hws
      exact hne (List.map_eq_nil_iff.mp hws)
    | cons w ws =>
      rw [hws] at hnonneg
      have hmem : ws.foldl min w ∈ w :: ws := foldl_min_mem ws w
      refine ⟨hnonneg _ hmem, fun hex => ?_,
        fun _ _ => ⟨hmem, fun x hx => foldl_min_le ws w x hx⟩⟩
      exfalso
      obtain ⟨a, ha, helig⟩ := hex
      rw [hall a ha] at helig
      exact Bool.false_ne_true helig

/-- C3 counterexample: a pool whose single rate-limited account's window
expires exactly now (reachable by markRateLimited with a 0ms window): the
eligible set is empty, yet getMinWaitTime returns 0 — refuting the claim's
"0 if and only if at least one account is currently eligible". -/
theorem getMinWaitTime_zero_without_eligible_counterexample :
    getMinWaitTime 0 (markAccountAt ⟨[sampleAccount 0], 0⟩ 0 0 0) = 0
      ∧ availablePositions 0 (markAccountAt ⟨[sampleAccount 0], 0⟩ 0 0 0).accounts = [] := by
  decide

/-- C3 witness: the amended theorem applied to a concrete rate-limited pool
(reset 12, now 5 — minimum wait 7) and to a concrete eligible pool. -/
theorem getMinWaitTime_spec_witness :
    getMinWaitTime 5 ⟨[⟨0, ⟨"r", "p", none⟩, none, none, true, 12, 0⟩], 0⟩
        ∈ (([⟨0, ⟨"r", "p", none⟩, none, none, true, 12, 0⟩] :
            List Account).filter (fun a => a.isRateLimited)).map
            (fun a => a.rateLimitResetTime - 5)
      ∧ getMinWaitTime 5 ⟨[sampleAccount 0], 0⟩ = 0 :=
  ⟨((getMinWaitTime_spec 5 ⟨[⟨0, ⟨"r", "p", none⟩, none, none, true, 12, 0⟩], 0⟩).2.2
      (by decide) (by decide)).1,
   (getMinWaitTime_spec 5 ⟨[sampleAccount 0], 0⟩).2.1 (by decide)⟩

/-! ## Dispatch loop over the endpoint fallback chain (plugin loader fetch)

The loader's fetch tries each endpoint of the fixed fallback list in order
(part_000 lines 229-338).  The upstream is modelled as the list of per-
endpoint outcomes (a response, or a thrown network error); the response
normalizer is a parameter.  Saving the auth and logging are external
side effects and are not represented. -/

/-- Case-insensitive header map (fetch Headers semantics: keys lower-cased). -/
structure HttpHeaders where
  entries : List (String × String)
deriving DecidableEq, Repr, Inhabited

/-- ASCII lower-casing of header names (the Headers API is
case-insensitive; upper-case ASCII is mapped down). -/
def lowerAscii (c : Char) : Char :=
  if 'A' ≤ c && c ≤ 'Z' then Char.ofNat (c.toNat + 32) else c

/-- Lower-cased header name. -/
def lowerKey (s : String) : String := ⟨s.data.map lowerAscii⟩

/-- Model of Headers.get: first entry with the (lower-cased) name, or null. -/
def HttpHeaders.get? (h : HttpHeaders) (k : String) : Option String :=
  (h.entries.find? (fun p => p.fst == lowerKey k)).map (fun p => p.snd)

/-- Model of Headers.set: replace any entry with the (lower-cased) name. -/
def HttpHeaders.set (h : HttpHeaders) (k v : String) : HttpHeaders :=
  ⟨(h.entries.filter (fun p => !(p.fst == lowerKey k))) ++ [(lowerKey k, v)]⟩

/-- Decimal digit test. -/
def isDigit (c : Char) : Bool := '0' ≤ c && c ≤ '9'

/-- Numeric value of a digit string. -/
def digitsToNat (cs : List Char) : Nat :=
  cs.foldl (fun n c => n * 10 + (c.toNat - '0'.toNat)) 0

/-- Model of JavaScript parseInt(s, 10): skip leading whitespace, optional
sign, then the longest digit prefix; NaN (none) when no digit follows. -/
def parseInt10 (s : String) : Option Int :=
  let cs := s.data.dropWhile (fun c => c == ' ' || c == '\t' || c == '\n' || c == '\r')
  match cs with
  | '-' :: rest =>
    if (rest.takeWhile isDigit).isEmpty then none
    else some (-(digitsToNat (rest.takeWhile isDigit) : Int))
  | '+' :: rest =>
    if (rest.takeWhile isDigit).isEmpty then none
    else some ((digitsToNat (rest.takeWhile isDigit) : Int))
  | _ =>
    if (cs.takeWhile isDigit).isEmpty then none
    else some ((digitsToNat (cs.takeWhile isDigit) : Int))

/-- Model of the 429 retry-window computation (part_000 lines 268-277):
take the retry-after-ms header, falling back (also on an empty value, JS
truthiness) to retry-after; default 60000 when absent, empty or
non-numeric; multiply by 1000 exactly when the chosen string is ===-equal
to the value of the retry-after header. -/
def computeRetryAfterMs (hms hra : Option String) : Int :=
  let headerVal : Option String :=
    match hms with
    | some s => if s = "" then hra else some s
    | none => hra
  match headerVal with
  | none => 60000
  | some s =>
    if s = "" then 60000
    else
      match parseInt10 s with
      | none => 60000
      | some n => if hra = some s then n * 1000 else n

/-- Upstream HTTP response (the fields the modelled code inspects). -/
structure Resp where
  status : Nat
  statusText : String
  headers : HttpHeaders
  bodyText : String
  hasBody : Bool
deriving DecidableEq, Repr, Inhabited

/-- Outcome of the per-account endpoint loop. -/
inductive LoopOut (ε : Type) where
  | success (r : Resp)
  | rateLimited (window : Int)
  | lastErrorResponse (r : Resp)
  | fatal (e : ε)
  | fatalNoEndpoints
deriving DecidableEq, Repr

/-- Model of the endpoint fallback loop (part_000 lines 229-338 plus the
post-loop returns at 341-388): each entry of outcomes is the result of
prepare+fetch against the corresponding fallback endpoint: HTTP 429 marks
the account rate-limited and abandons the remaining endpoints; 403/404/5xx
on a non-last endpoint remembers the response and advances; any other
status (or the last endpoint) returns the normalized response; a thrown
error advances on a non-last endpoint and is fatal on the last. -/
def runEndpointLoop {ε : Type} (normalize : Resp → Resp) :
    List (Except ε Resp) → Option Resp → Option ε → LoopOut ε
  | [], lastResp, lastErr =>
    match lastResp with
    | some r => .lastErrorResponse (normalize r)
    | none =>
      match lastErr with
      | some e => .fatal e
      | none => .fatalNoEndpoints
  | Except.error e :: rest, lastResp, _ =>
    match rest with
    | [] => .fatal e
    | _ :: _ => runEndpointLoop normalize rest lastResp (some e)
  | Except.ok r :: rest, lastResp, lastErr =>
    if r.status = 429 then
      .rateLimited (computeRetryAfterMs (r.headers.get? "retry-after-ms")
        (r.headers.get? "retry-after"))
    else if (r.status = 403 ∨ r.status = 404 ∨ 500 ≤ r.status) ∧ rest.isEmpty = false then
      runEndpointLoop normalize rest (some r) lastErr
    else .success (normalize r)

/-- The loop together with its only account-state side effect: on a 429 the
selected account (at the given pool position) is marked rate-limited for the
computed window (part_000 line 279). -/
def dispatchWithAccount {ε : Type} (st : AMState) (pos : Nat) (now : Int)
    (normalize : Resp → Resp) (outcomes : List (Except ε Resp)) : LoopOut ε × AMState :=
  match runEndpointLoop normalize outcomes none none with
  | .rateLimited w => (.rateLimited w, markAccountAt st pos now w)
  | out => (out, st)

theorem runEndpointLoop_success {ε : Type} (normalize : Resp → Resp) :
    ∀ (j : Nat) (outcomes : List (Except ε Resp)) (lastResp : Option Resp)
      (lastErr : Option ε) (r : Resp),
      outcomes[j]? = some (Except.ok r) → r.status = 200 →
      (∀ i, i < j → ∃ ri, outcomes[i]? = some (Except.ok ri) ∧
        (ri.status = 403 ∨ ri.status = 404 ∨ 500 ≤ ri.status)) →
      runEndpointLoop normalize outcomes lastResp lastErr = .success (normalize r)
  | 0, [], _, _, r, hj, _, _ => by simp at hj
  | 0, o :: rest, lastResp, lastErr, r, hj, hr200, _ => by
    rw [List.getElem?_cons_zero] at hj
    have ho : o = Except.ok r := Option.some.inj hj
    subst ho
    unfold runEndpointLoop
    rw [if_neg (by omega), if_neg (by
      rintro ⟨h403 | h404 | h500, _⟩ <;> omega)]
  | j + 1, [], _, _, r, hj, _, _ => by simp at hj
  | j + 1, o :: rest, lastResp, lastErr, r, hj, hr200, hfail => by
    obtain ⟨r0, hr0, hr0s⟩ := hfail 0 (Nat.succ_pos j)
    rw [List.getElem?_cons_zero] at hr0
    have ho : o = Except.ok r0 := Option.some.inj hr0
    subst ho
    rw [List.getElem?_cons_succ] at hj
    have hrest : rest.isEmpty = false := by
      cases rest with
      | nil => simp at hj
      | cons _ _ => rfl
    unfold runEndpointLoop
    rw [if_neg (by rcases hr0s with h | h | h <;> omega), if_pos ⟨hr0s, hrest⟩]
    exact runEndpointLoop_success normalize j rest (some r0) lastErr r hj hr200
      (fun i hi => by
        have := hfail (i + 1) (Nat.succ_lt_succ hi)
        rwa [List.getElem?_cons_succ] at this)

/-- C6: when every endpoint before the j-th returns a retryable failure
status (403, 404, or 5xx — never a 429) and the j-th returns HTTP 200, the
dispatch loop advances past each failure and returns the successful
endpoint's normalized response, with no rate-limit mark on the account. -/
theorem endpointFallback_success {ε : Type} (normalize : Resp → Resp) (st : AMState)
    (pos : Nat) (now : Int) (outcomes : List (Except ε Resp)) (j : Nat) (r : Resp)
    (hjr : outcomes[j]? = some (Except.ok r))
    (hr200 : r.status = 200)
    (hfail : ∀ i, i < j → ∃ ri, outcomes[i]? = some (Except.ok ri) ∧
      (ri.status = 403 ∨ ri.status = 404 ∨ 500 ≤ ri.status)) :
    dispatchWithAccount st pos now normalize outcomes
      = (.success (normalize r), st) := by
  unfold dispatchWithAccount
  rw [runEndpointLoop_success normalize j outcomes none none r hjr hr200 hfail]

/-- C6 witness: 404 from the first endpoint, 200 from the second — the final
result is the second endpoint's normalized response and the account pool is
untouched. -/
theorem endpointFallback_success_witness :
    dispatchWithAccount ⟨[sampleAccount 0], 0⟩ 0 0 id
        ([Except.ok { status := 404, statusText := "Not Found", headers := ⟨[]⟩,
                      bodyText := "", hasBody := true },
          Except.ok { status := 200, statusText := "OK", headers := ⟨[]⟩,
                      bodyText := "ok", hasBody := true }] : List (Except Unit Resp))
      = (.success (id { status := 200, statusText := "OK", headers := ⟨[]⟩,
                        bodyText := "ok", hasBody := true }),
         ⟨[sampleAccount 0], 0⟩) :=
  endpointFallback_success id ⟨[sampleAccount 0], 0⟩ 0 0 _ 1 _ rfl (by decide)
    (fun i hi => by
      interval_cases i
      exact ⟨{ status := 404, statusText := "Not Found", headers := ⟨[]⟩,
               bodyText := "", hasBody := true }, rfl, by decide⟩)

/-- C5 (code bug): the 429 window computation converts the chosen header to
milliseconds by comparing its string value with the retry-after header; when
retry-after-ms: 15000 and retry-after: 15000 are both present the ms value is
multiplied by 1000, yielding a 15000000 ms window instead of 15000 ms (the
lone-header cases behave as specified). -/
theorem retryAfterMs_collision_bug :
    computeRetryAfterMs (some "15000") (some "15000") = 15000000
      ∧ computeRetryAfterMs (some "15000") (some "30") = 15000
      ∧ computeRetryAfterMs (some "15000") none = 15000
      ∧ computeRetryAfterMs none (some "30") = 30000
      ∧ computeRetryAfterMs none none = 60000
      ∧ runEndpointLoop id
          ([Except.ok { status := 429, statusText := "Too Many Requests",
                        headers := ⟨[("retry-after-ms", "15000"), ("retry-after", "15000")]⟩,
                        bodyText := "", hasBody := true }] : List (Except Unit Resp)) none none
        = LoopOut.rateLimited 15000000
      ∧ ((dispatchWithAccount ⟨[sampleAccount 0], 0⟩ 0 0 id
          ([Except.ok { status := 429, statusText := "Too Many Requests",
                        headers := ⟨[("retry-after-ms", "15000"), ("retry-after", "15000")]⟩,
                        bodyText := "", hasBody := true }] : List (Except Unit Resp))).snd.accounts.getD 0 default
          ).rateLimitResetTime = 15000000 := by
  decide

/-! ## Response normalizer (cli.ts transformAntigravityResponse)

The helpers imported from request-helpers.ts are not part of the sources
available here; they appear as an explicit record of (possibly throwing)
functions, and JSON.parse as a parse-result input.  JSON values are the
inductive `Json`; JSON.stringify is the concrete `Json.render` (string
escaping is not modelled — no claim depends on the rendered text). -/

/-- JSON value tree. -/
inductive Json where
  | null
  | bool (b : Bool)
  | num (n : Int)
  | str (s : String)
  | arr (items : List Json)
  | obj (fields : List (String × Json))

instance : Inhabited Json := ⟨Json.null⟩

mutual

/-- Structural equality test on JSON values. -/
def Json.beq : Json → Json → Bool
  | .null, .null => true
  | .bool a, .bool b => a == b
  | .num a, .num b => a == b
  | .str a, .str b => a == b
  | .arr a, .arr b => Json.beqList a b
  | .obj a, .obj b => Json.beqFields a b
  | _, _ => false

/-- Pointwise equality of JSON arrays. -/
def Json.beqList : List Json → List Json → Bool
  | [], [] => true
  | a :: as, b :: bs => Json.beq a b && Json.beqList as bs
  | _, _ => false

/-- Pointwise equality of JSON object fields. -/
def Json.beqFields : List (String × Json) → List (String × Json) → Bool
  | [], [] => true
  | (k1, v1) :: as, (k2, v2) :: bs => k1 == k2 && Json.beq v1 v2 && Json.beqFields as bs
  | _, _ => false

end

instance : BEq Json := ⟨Json.beq⟩

/-- Property access on an object (undefined — none — on everything else). -/
def Json.get? : Json → String → Option Json
  | .obj fields, k => (fields.find? (fun p => p.fst == k)).map (fun p => p.snd)
  | _, _ => none

/-- JavaScript truthiness of a JSON value. -/
def Json.truthy : Json → Bool
  | .null => false
  | .bool b => b
  | .num n => n != 0
  | .str s => s != ""
  | .arr _ => true
  | .obj _ => true

/-- Truthiness of a possibly-undefined value. -/
def truthyOpt : Option Json → Bool
  | none => false
  | some j => j.truthy

/-- Property assignment on an object: update in place, or append a new key. -/
def Json.setField : Json → String → Json → Json
  | .obj fields, k, v =>
    if (fields.find? (fun p => p.fst == k)).isSome then
      .obj (fields.map (fun p => if p.fst == k then (p.fst, v) else p))
    else .obj (fields ++ [(k, v)])
  | j, _, _ => j

mutual

/-- Concrete JSON.stringify model (escaping not modelled). -/
def Json.render : Json → String
  | .null => "null"
  | .bool true => "true"
  | .bool false => "false"
  | .num n => toString n
  | .str s => "\"" ++ s ++ "\""
  | .arr items => "[" ++ Json.renderList items ++ "]"
  | .obj fields => "\x7b" ++ Json.renderFields fields ++ "\x7d"

/-- Comma-joined rendering of array items. -/
def Json.renderList : List Json → String
  | [] => ""
  | [j] => Json.render j
  | j :: rest => Json.render j ++ "," ++ Json.renderList rest

/-- Comma-joined rendering of object fields. -/
def Json.renderFields : List (String × Json) → String
  | [] => ""
  | [(k, v)] => "\"" ++ k ++ "\":" ++ Json.render v
  | (k, v) :: rest => "\"" ++ k ++ "\":" ++ Json.render v ++ "," ++ Json.renderFields rest

end

/-- Substring test (the semantics of String.prototype.includes). -/
def listContainsSub {α : Type} [BEq α] (pat : List α) : List α → Bool
  | [] => pat.isEmpty
  | l@(_ :: rest) => pat.isPrefixOf l || listContainsSub pat rest

/-- Model of String.prototype.includes. -/
def strIncludes (s pat : String) : Bool := listContainsSub pat.data s.data

/-- Token-usage metadata extracted by the (external) helpers. -/
structure UsageMeta where
  cachedContentTokenCount : Option Int
  totalTokenCount : Option Int
  promptTokenCount : Option Int
  candidatesTokenCount : Option Int
deriving DecidableEq, Repr, Inhabited

/-- External helpers from request-helpers.ts (not in the available sources):
each may throw, which the Except models. JSON.parse appears as parseJsonText
(none models its catch branch). -/
structure NormalizeHelpers where
  parseJsonText : String → Option Json
  parseAntigravityApiBody : String → Except String (Option Json)
  extractUsageFromSsePayload : String → Except String (Option UsageMeta)
  extractUsageMetadata : Json → Except String (Option UsageMeta)
  rewritePreviewAccessError : Json → Nat → Option String → Except String (Option Json)
  transformThinkingParts : Json → Except String Json

/-- Request metadata threaded into the normalizer for debug reporting. -/
structure ReqMeta where
  requestedModel : Option String
  projectId : Option String
  endpoint : Option String
  effectiveModel : Option String
  toolDebugMissing : Option Nat
  toolDebugSummary : Option String
  toolDebugPayload : Option String
deriving DecidableEq, Repr, Inhabited

/-- Empty request metadata. -/
def emptyMeta : ReqMeta := ⟨none, none, none, none, none, none, none⟩

/-- JS template fallback (value || "default") for an optional string. -/
def strOr (o : Option String) (d : String) : String :=
  match o with
  | some s => if s = "" then d else s
  | none => d

/-- JS string coercion of a JSON value (used when a non-string error message
is concatenated; object/array coercion approximated by their rendering). -/
def jsStringOfJson : Json → String
  | .str s => s
  | .num n => toString n
  | .bool true => "true"
  | .bool false => "false"
  | .null => "null"
  | j => Json.render j

/-- Model of `(errorBody.error.message || "Unknown error")`. -/
def messageOr (m : Option Json) : String :=
  match m with
  | some j => if j.truthy then jsStringOfJson j else "Unknown error"
  | none => "Unknown error"

/-- Debug block appended to upstream error messages (cli.ts line 690). -/
def buildDebugInfo (meta : ReqMeta) (status : Nat) (headers : HttpHeaders) : String :=
  "\n\n[Debug Info]\nRequested Model: " ++ strOr meta.requestedModel "Unknown" ++
  "\nEffective Model: " ++ strOr meta.effectiveModel "Unknown" ++
  "\nProject: " ++ strOr meta.projectId "Unknown" ++
  "\nEndpoint: " ++ strOr meta.endpoint "Unknown" ++
  "\nStatus: " ++ toString status ++
  "\nRequest ID: " ++ strOr (headers.get? "x-request-id") "N/A" ++
  (match meta.toolDebugMissing with
    | some n => "\nTool Debug Missing: " ++ toString n
    | none => "") ++
  (match meta.toolDebugSummary with
    | some s => if s = "" then "" else "\nTool Debug Summary: " ++ s
    | none => "") ++
  (match meta.toolDebugPayload with
    | some s => if s = "" then "" else "\nTool Debug Payload: " ++ s
    | none => "")

/-- The structured RetryInfo type tag. -/
def retryInfoType : String := "type.googleapis.com/google.rpc.RetryInfo"

/-- Capture group of the duration regex (one or more digits/dots followed by
a final letter s, anchored at both ends). -/
def durationSecondsGroup (s : String) : Option String :=
  match s.data.reverse with
  | 's' :: rest =>
    if rest ≠ [] ∧ rest.all (fun c => isDigit c || c == '.') then
      some ⟨rest.reverse⟩
    else none
  | _ => none

/-- Ceiling division (the exact value of Math.ceil (a / b) for naturals). -/
def ceilDiv (a b : Nat) : Nat := (a + b - 1) / b

/-- Model of parseFloat on a digits-and-dots string: longest valid decimal
prefix, kept exact as numerator / 10 ^ scale. -/
def parseFloatPrefix (cs : List Char) : Option (Nat × Nat) :=
  let intPart := cs.takeWhile isDigit
  match cs.drop intPart.length with
  | '.' :: rest2 =>
    let fracPart := rest2.takeWhile isDigit
    if intPart.isEmpty && fracPart.isEmpty then none
    else some (digitsToNat intPart * 10 ^ fracPart.length + digitsToNat fracPart,
      fracPart.length)
  | _ => if intPart.isEmpty then none else some (digitsToNat intPart, 0)

/-- Model of the RetryInfo translation block (cli.ts lines 700-717): find a
RetryInfo detail, parse its retryDelay "<seconds>s" duration, and set the
Retry-After (whole seconds) and retry-after-ms headers; a truthy non-string
retryDelay throws (String.prototype.match on a non-string). -/
def applyRetryInfoHeaders (headers : HttpHeaders) (errorBody : Json) :
    Except String HttpHeaders :=
  match (errorBody.get? "error").bind (fun e => e.get? "details") with
  | some (.arr details) =>
    match details.find? (fun d => d.get? "@type" == some (.str retryInfoType)) with
    | some ri =>
      match ri.get? "retryDelay" with
      | some rd =>
        if rd.truthy then
          match rd with
          | .str s =>
            match durationSecondsGroup s with
            | some grp =>
              match parseFloatPrefix grp.data with
              | some (n, sc) =>
                if 0 < n then
                  .ok ((headers.set "Retry-After" (toString (ceilDiv n (10 ^ sc)))).set
                    "retry-after-ms" (toString (ceilDiv (n * 1000) (10 ^ sc))))
                else .ok headers
              | none => .ok headers
            | none => .ok headers
          | _ => .error "TypeError: retryDelay.match is not a function"
        else .ok headers
      | none => .ok headers
    | none => .ok headers
  | _ => .ok headers

/-- Usage headers applied on success bodies (cli.ts lines 731-743): all four
are gated on a defined cachedContentTokenCount. -/
def applyUsageHeaders (headers : HttpHeaders) (usage : Option UsageMeta) : HttpHeaders :=
  match usage with
  | some u =>
    match u.cachedContentTokenCount with
    | some c =>
      let h1 := headers.set "x-antigravity-cached-content-token-count" (toString c)
      let h2 := match u.totalTokenCount with
        | some t => h1.set "x-antigravity-total-token-count" (toString t)
        | none => h1
      let h3 := match u.promptTokenCount with
        | some t => h2.set "x-antigravity-prompt-token-count" (toString t)
        | none => h2
      match u.candidatesTokenCount with
      | some t => h3.set "x-antigravity-candidates-token-count" (toString t)
      | none => h3
    | none => headers
  | none => headers

/-- Content type of a response (empty when the header is absent). -/
def respContentType (r : Resp) : String := (r.headers.get? "content-type").getD ""

/-- Whether the content type mentions application/json. -/
def respIsJson (r : Resp) : Bool := strIncludes (respContentType r) "application/json"

/-- Whether the content type mentions text/event-stream. -/
def respIsEventStream (r : Resp) : Bool := strIncludes (respContentType r) "text/event-stream"

/-- Model of Response.ok (status in 200..299). -/
def respOk (r : Resp) : Bool := decide (200 ≤ r.status) && decide (r.status ≤ 299)

/-- The tail of the buffered normalization path (cli.ts lines 720-767),
common to the ok path and the non-returning error path: usage extraction,
usage headers, then the body selection among raw text, the transformed inner
response, and the patched body. -/
def continueNormalize (H : NormalizeHelpers) (meta : ReqMeta) (resp : Resp)
    (streaming isES : Bool) (headers : HttpHeaders) (text : String) :
    Except String Resp := do
  let usageFromSse ← if streaming && isES then H.extractUsageFromSsePayload text
    else pure none
  let parsed ← if !streaming || !isES then H.parseAntigravityApiBody text
    else pure none
  let patched ← match parsed with
    | some p => H.rewritePreviewAccessError p resp.status meta.requestedModel
    | none => pure none
  let effectiveBody := patched.orElse (fun _ => parsed)
  let usage ← match usageFromSse with
    | some u => pure (some u)
    | none =>
      match effectiveBody with
      | some b => H.extractUsageMetadata b
      | none => pure none
  let headers2 := applyUsageHeaders headers usage
  match parsed with
  | none => pure { status := resp.status, statusText := resp.statusText,
                   headers := headers2, bodyText := text, hasBody := true }
  | some _ =>
    match effectiveBody.bind (fun b => b.get? "response") with
    | some r => do
      let t ← H.transformThinkingParts r
      pure { status := resp.status, statusText := resp.statusText,
             headers := headers2, bodyText := t.render, hasBody := true }
    | none =>
      match patched with
      | some p => pure { status := resp.status, statusText := resp.statusText,
                         headers := headers2, bodyText := p.render, hasBody := true }
      | none => pure { status := resp.status, statusText := resp.statusText,
                       headers := headers2, bodyText := text, hasBody := true }

/-- The try-block of transformAntigravityResponse (cli.ts lines 676-767): on
a non-ok status, parse the error body (synthesizing an error envelope when
JSON.parse fails); when the envelope has a truthy error, append the debug
block to its message and return immediately with the copied headers
(untouched); otherwise run the RetryInfo block and fall through to the
common tail. -/
def innerNormalize (H : NormalizeHelpers) (meta : ReqMeta) (resp : Resp)
    (streaming isES : Bool) : Except String Resp :=
  let headers0 := resp.headers
  let text := resp.bodyText
  if respOk resp then
    continueNormalize H meta resp streaming isES headers0 text
  else
    let errorBody := (H.parseJsonText text).getD
      (.obj [("error", .obj [("message", .str text)])])
    if truthyOpt (errorBody.get? "error") then
      match errorBody.get? "error" with
      | some (Json.obj efields) =>
        let debugInfo := buildDebugInfo meta resp.status headers0
        let newMsg := messageOr ((Json.obj efields).get? "message") ++ debugInfo
        let newBody := errorBody.setField "error"
          ((Json.obj efields).setField "message" (.str newMsg))
        pure { status := resp.status, statusText := resp.statusText,
               headers := headers0, bodyText := newBody.render, hasBody := true }
      | _ => throw "TypeError: cannot create property on a primitive"
    else
      match applyRetryInfoHeaders headers0 errorBody with
      | .ok headers1 => continueNormalize H meta resp streaming isES headers1 text
      | .error e => throw e

/-- Result of transformAntigravityResponse, keeping the four return sites
apart: verbatim pass-through of non-JSON bodies, the streaming wrapper, the
normalized (rebuilt) response, and the catch-all fallback that returns the
original response object. -/
inductive TransformOut where
  | passthroughNonJson (r : Resp)
  | streamedSse (r : Resp)
  | normalized (r : Resp)
  | fallbackOriginal (r : Resp)
deriving DecidableEq, Repr

/-- Model of transformAntigravityResponse (cli.ts lines 601-775): non-JSON,
non-SSE responses pass through; successful streaming SSE responses are
wrapped in the incremental transform; everything else runs the buffered
try-block, whose exceptions are caught by returning the original response. -/
def transformAntigravityResponse (H : NormalizeHelpers) (meta : ReqMeta)
    (resp : Resp) (streaming : Bool) : TransformOut :=
  if !respIsJson resp && !respIsEventStream resp then .passthroughNonJson resp
  else if streaming && respOk resp && respIsEventStream resp && resp.hasBody then
    .streamedSse resp
  else
    match innerNormalize H meta resp streaming (respIsEventStream resp) with
    | .ok r => .normalized r
    | .error _ => .fallbackOriginal resp

/-- C9: whenever the buffered normalization path raises, the function returns
the original upstream response object unmodified instead of propagating the
failure. -/
theorem normalizeException_returnsOriginal (H : NormalizeHelpers) (meta : ReqMeta)
    (resp : Resp) (streaming : Bool) (e : String)
    (hct : (respIsJson resp || respIsEventStream resp) = true)
    (hfast : (streaming && respOk resp && respIsEventStream resp && resp.hasBody) = false)
    (herr : innerNormalize H meta resp streaming (respIsEventStream resp) = .error e) :
    transformAntigravityResponse H meta resp streaming = .fallbackOriginal resp := by
  unfold transformAntigravityResponse
  rw [if_neg (by
      rcases Bool.or_eq_true_iff.mp hct with h | h <;> simp [h]),
    if_neg (by simp [hfast]), herr]

/-- Helpers that throw while parsing the body (a concrete failure mode of
the external parse helper). -/
def throwingHelpers : NormalizeHelpers where
  parseJsonText := fun _ => none
  parseAntigravityApiBody := fun _ => .error "boom"
  extractUsageFromSsePayload := fun _ => .ok none
  extractUsageMetadata := fun _ => .ok none
  rewritePreviewAccessError := fun _ _ _ => .ok none
  transformThinkingParts := fun j => .ok j

/-- Sample successful JSON response. -/
def sampleJsonResp : Resp :=
  { status := 200, statusText := "OK",
    headers := ⟨[("content-type", "application/json")]⟩,
    bodyText := "\x7b\x7d", hasBody := true }

/-- C9 witness: a concrete JSON response whose normalization throws comes
back as the untouched original. -/
theorem normalizeException_returnsOriginal_witness :
    transformAntigravityResponse throwingHelpers emptyMeta sampleJsonResp false
      = .fallbackOriginal sampleJsonResp :=
  normalizeException_returnsOriginal throwingHelpers emptyMeta sampleJsonResp false
    "boom" (by decide) (by decide) rfl

/-- Headers of any transform result. -/
def TransformOut.headers : TransformOut → HttpHeaders
  | .passthroughNonJson r => r.headers
  | .streamedSse r => r.headers
  | .normalized r => r.headers
  | .fallbackOriginal r => r.headers

/-- Whether the transform took the normalized-return path. -/
def TransformOut.isNormalized : TransformOut → Bool
  | .normalized _ => true
  | _ => false

/-- Concrete upstream 429 error body carrying a structured RetryInfo detail
with retryDelay "30s". -/
def retryInfoBody : Json :=
  .obj [("error", .obj
    [("message", .str "Resource exhausted"),
     ("details", .arr [.obj
       [("@type", .str "type.googleapis.com/google.rpc.RetryInfo"),
        ("retryDelay", .str "30s")]])])]

/-- Helpers whose JSON.parse yields the RetryInfo error body. -/
def retryInfoHelpers : NormalizeHelpers where
  parseJsonText := fun _ => some retryInfoBody
  parseAntigravityApiBody := fun _ => .ok none
  extractUsageFromSsePayload := fun _ => .ok none
  extractUsageMetadata := fun _ => .ok none
  rewritePreviewAccessError := fun _ _ _ => .ok none
  transformThinkingParts := fun j => .ok j

/-- Concrete upstream 429 response whose JSON body is the RetryInfo error. -/
def retryInfoResp : Resp :=
  { status := 429, statusText := "Too Many Requests",
    headers := ⟨[("content-type", "application/json")]⟩,
    bodyText := retryInfoBody.render, hasBody := true }

/-- C7 (code bug): on a non-success response whose error body carries a
structured RetryInfo retryDelay of "30s", the normalized response carries no
Retry-After and no retry-after-ms header — the translation block (cli.ts
lines 700-717) is unreachable, because a body with error.details also has a
truthy error and the function returns from the debug-injection branch first.
The final conjunct shows the very block, run on its own against the same
body, would have produced Retry-After: 30 and retry-after-ms: 30000. -/
theorem retryInfoHeaders_dead_code :
    (transformAntigravityResponse retryInfoHelpers emptyMeta retryInfoResp false).isNormalized
        = true
    ∧ (transformAntigravityResponse retryInfoHelpers emptyMeta retryInfoResp
        false).headers.get? "retry-after-ms" = none
    ∧ (transformAntigravityResponse retryInfoHelpers emptyMeta retryInfoResp
        false).headers.get? "Retry-After" = none
    ∧ (applyRetryInfoHeaders retryInfoResp.headers retryInfoBody).map
        (fun h => (h.get? "retry-after-ms", h.get? "Retry-After"))
      = .ok (some "30000", some "30") :=
  ⟨rfl, rfl, rfl, rfl⟩

/-! ## Incremental SSE transform (cli.ts lines 626-663)

The TransformStream buffers decoded text, splits on the blank-line frame
delimiter "\n\n", forwards every complete frame through the per-event
transform (transformStreamingPayload, here an arbitrary function T since the
invariance holds for every event transform), keeps the last incomplete part
buffered, and on flush transforms whatever remains.  The TextDecoder is the
external decoder collaborator: its streaming contract (decoding is a
morphism with carried state) is an explicit hypothesis of the byte-level
theorem, which therefore covers chunk splits inside multi-byte characters. -/

/-- Greedy left-to-right split on the two-character frame delimiter "\n\n"
(the semantics of buffer.split("\n\n")). -/
def split2NL : List Char → List (List Char)
  | [] => [[]]
  | ['\n'] => [['\n']]
  | '\n' :: '\n' :: rest2 => [] :: split2NL rest2
  | c :: rest => consHead c (split2NL rest)

/-- JavaScript whitespace for String.prototype.trim (the ASCII subset). -/
def isJsWhitespace (c : Char) : Bool :=
  c == ' ' || c == '\t' || c == '\n' || c == '\r' || c == '\x0b' || c == '\x0c'

/-- Embedding of the guard `event.trim() !== ""`. -/
def trimmedNonEmpty (e : List Char) : Bool := e.any (fun c => !isJsWhitespace c)

/-- Output for one complete frame: transformed and re-delimited, or nothing
for a whitespace-only frame. -/
def emitEvent (T : List Char → List Char) (e : List Char) : List Char :=
  if trimmedNonEmpty e then T e ++ ['\n', '\n'] else []

/-- One transform(chunk) step: split buffer ++ chunk on the delimiter, emit
the complete frames, keep the last part as the new buffer. -/
def feedChunk (T : List Char → List Char) (buf chunk : List Char) :
    List Char × List Char :=
  (((split2NL (buf ++ chunk)).dropLast.map (emitEvent T)).flatten,
   (split2NL (buf ++ chunk)).getLast?.getD [])

/-- The flush step: transform the remaining buffered text when it is not
whitespace-only (no trailing delimiter is appended here). -/
def flushChunk (T : List Char → List Char) (buf : List Char) : List Char :=
  if trimmedNonEmpty buf then T buf else []

/-- Feed a list of chunks through the transform, concatenating the outputs. -/
def feedAll (T : List Char → List Char) :
    List (List Char) → List Char → List Char × List Char
  | [], buf => ([], buf)
  | c :: cs, buf =>
    ((feedChunk T buf c).1 ++ (feedAll T cs (feedChunk T buf c).2).1,
     (feedAll T cs (feedChunk T buf c).2).2)

/-- End-to-end text-level pipeline: feed all chunks, then flush. -/
def processSseChunks (T : List Char → List Char) (chunks : List (List Char)) :
    List Char :=
  let (o, b) := feedAll T chunks []
  o ++ flushChunk T b

theorem consHead_ne_nil {α : Type} (c : α) (l : List (List α)) : consHead c l ≠ [] := by
  cases l <;> simp [consHead]

theorem split2NL_ne_nil : ∀ l, split2NL l ≠ [] := by
  intro l
  induction l using split2NL.induct with
  | case1 => simp [split2NL]
  | case2 => simp [split2NL]
  | case3 rest2 ih => simp [split2NL]
  | case4 c rest h1 h2 ih =>
    rw [split2NL.eq_4 c rest h1 h2]
    exact consHead_ne_nil c (split2NL rest)

theorem split2NL_first_group (d : Char) (l : List Char) (hd : ¬ d = '\n') :
    ∃ p ps, split2NL (d :: l) = (d :: p) :: ps := by
  have heq := split2NL.eq_4 d l (fun hc _ => hd hc) (fun _ hc _ => hd hc)
  cases hsl : split2NL l with
  | nil => exact absurd hsl (split2NL_ne_nil l)
  | cons q qs =>
    rw [hsl] at heq
    exact ⟨q, qs, by rw [heq]; rfl⟩

/-- Splitting on the frame delimiter is incremental: splitting a ++ b is the
complete frames of a followed by the split of (incomplete part of a) ++ b.
This is the heart of chunk-boundary invariance: a delimiter spanning the
boundary lies inside the carried-over part. -/
theorem split2NL_append : ∀ (a b : List Char),
    split2NL (a ++ b)
      = (split2NL a).dropLast ++ split2NL ((split2NL a).getLast?.getD [] ++ b) := by
  intro a
  induction a using split2NL.induct with
  | case1 => intro b; simp [split2NL]
  | case2 => intro b; simp [split2NL]
  | case3 rest2 ih =>
    intro b
    rw [show ('\n' :: '\n' :: rest2) ++ b = '\n' :: '\n' :: (rest2 ++ b) from rfl,
      split2NL.eq_3, split2NL.eq_3, ih b]
    cases hs : split2NL rest2 with
    | nil => exact absurd hs (split2NL_ne_nil rest2)
    | cons s ss =>
      rw [show ([] :: s :: ss).dropLast = [] :: (s :: ss).dropLast from rfl,
        List.getLast?_cons_cons]
      rfl
  | case4 c rest h1 h2 ih =>
    intro b
    have hL : split2NL ((c :: rest) ++ b) = consHead c (split2NL (rest ++ b)) := by
      rw [show (c :: rest) ++ b = c :: (rest ++ b) from rfl]
      apply split2NL.eq_4
      · intro hc hnil
        rcases List.append_eq_nil.mp hnil with ⟨hr, _⟩
        exact h1 hc hr
      · intro rest2 hc heq
        cases rest with
        | nil => exact h1 hc rfl
        | cons d rest' =>
          have hd : d = '\n' := by
            have := congrArg List.head? heq
            simpa using this
          exact h2 rest' hc (by rw [hd])
    have hA : split2NL (c :: rest) = consHead c (split2NL rest) :=
      split2NL.eq_4 c rest h1 h2
    rw [hL, hA, ih b]
    cases hs : split2NL rest with
    | nil => exact absurd hs (split2NL_ne_nil rest)
    | cons p ps =>
      cases ps with
      | nil =>
        rw [show consHead c [p] = [c :: p] from rfl]
        rw [List.dropLast_single, List.getLast?_singleton, List.dropLast_single,
          List.getLast?_singleton]
        simp only [Option.getD_some, List.nil_append]
        by_cases hc : c = '\n'
        · subst hc
          cases rest with
          | nil => exact absurd rfl (h1 rfl)
          | cons d rest' =>
            have hd : ¬ d = '\n' := fun hdn => h2 rest' rfl (by rw [hdn])
            obtain ⟨p', ps', hfirst⟩ := split2NL_first_group d rest' hd
            rw [hs] at hfirst
            have hp : p = d :: p' := by
              have := congrArg (fun l => List.head? l) hfirst
              simp at this
              exact this
            rw [show ('\n' :: p) ++ b = '\n' :: (p ++ b) from rfl]
            rw [split2NL.eq_4 '\n' (p ++ b)
              (fun _ hnil => by
                rcases List.append_eq_nil.mp hnil with ⟨hpnil, _⟩
                rw [hp] at hpnil
                exact List.noConfusion hpnil)
              (fun rest2 _ heq => by
                rw [hp] at heq
                have : d = '\n' := by
                  have := congrArg List.head? heq
                  simpa using this
                exact hd this)]
        · rw [show (c :: p) ++ b = c :: (p ++ b) from rfl]
          rw [split2NL.eq_4 c (p ++ b) (fun hcc _ => hc hcc) (fun _ hcc _ => hc hcc)]
      | cons q qs =>
        rw [show consHead c (p :: q :: qs) = (c :: p) :: q :: qs from rfl,
          List.dropLast_cons₂, List.getLast?_cons_cons, List.dropLast_cons₂,
          List.getLast?_cons_cons]
        rfl

theorem feedChunk_comp (T : List Char → List Char) (buf c1 c2 : List Char) :
    feedChunk T buf (c1 ++ c2)
      = ((feedChunk T buf c1).1 ++ (feedChunk T (feedChunk T buf c1).2 c2).1,
         (feedChunk T (feedChunk T buf c1).2 c2).2) := by
  unfold feedChunk
  rw [show buf ++ (c1 ++ c2) = (buf ++ c1) ++ c2 from (List.append_assoc buf c1 c2).symm,
    split2NL_append (buf ++ c1) c2]
  have hne : split2NL ((split2NL (buf ++ c1)).getLast?.getD [] ++ c2) ≠ [] :=
    split2NL_ne_nil _
  simp [List.dropLast_append_of_ne_nil _ hne, List.getLast?_append_of_ne_nil _ hne]

theorem feedAll_concat (T : List Char → List Char) :
    ∀ (chunks : List (List Char)) (buf : List Char), chunks ≠ [] →
      feedAll T chunks buf = feedChunk T buf chunks.flatten
  | [], _, h => absurd rfl h
  | [c], buf, _ => by
    simp [feedAll]
  | c1 :: c2 :: cs, buf, _ => by
    have ih := feedAll_concat T (c2 :: cs) (feedChunk T buf c1).2 (by simp)
    rw [show feedAll T (c1 :: c2 :: cs) buf
        = ((feedChunk T buf c1).1 ++ (feedAll T (c2 :: cs) (feedChunk T buf c1).2).1,
           (feedAll T (c2 :: cs) (feedChunk T buf c1).2).2) from rfl, ih]
    rw [show (c1 :: c2 :: cs).flatten = c1 ++ (c2 :: cs).flatten from rfl,
      feedChunk_comp]

/-- Text-level chunk invariance: feeding any chunking of a body through the
transform (with a final flush) produces the same output as feeding the whole
body as one chunk. -/
theorem processSseChunks_chunk_invariant (T : List Char → List Char)
    (chunks : List (List Char)) :
    processSseChunks T chunks = processSseChunks T [chunks.flatten] := by
  cases chunks with
  | nil => rfl
  | cons c cs =>
    unfold processSseChunks
    rw [feedAll_concat T (c :: cs) [] (by simp),
      feedAll_concat T [(c :: cs).flatten] [] (by simp)]
    rw [show ([(c :: cs).flatten] : List (List Char)).flatten = (c :: cs).flatten from by simp]

/-- Sanity example: a concrete SSE body split mid-frame gives the same output
as the unsplit body (with the identity event transform). -/
example :
    processSseChunks id ["data: a\n\nda".data, "ta: b\n\nx".data]
      = processSseChunks id ["data: a\n\ndata: b\n\nx".data] := by decide

/-! Byte level: the TextDecoder is an external collaborator carrying decode
state across chunks; its streaming contract is the morphism law below, under
which invariance also holds for byte splits inside multi-byte characters. -/

/-- The streaming contract of TextDecoder with stream: true — decoding
nothing yields nothing, and decoding a concatenation equals decoding the
pieces in sequence with carried state. -/
def DecoderStreamContract {σ : Type} (decode : σ → List Nat → σ × List Char) : Prop :=
  (∀ s, decode s [] = (s, []))
  ∧ ∀ s bs1 bs2, decode s (bs1 ++ bs2)
      = ((decode (decode s bs1).1 bs2).1, (decode s bs1).2 ++ (decode (decode s bs1).1 bs2).2)

/-- Decoded text of each byte chunk, threading the decoder state. -/
def decodeOuts {σ : Type} (decode : σ → List Nat → σ × List Char) :
    σ → List (List Nat) → List (List Char)
  | _, [] => []
  | s, c :: cs => (decode s c).2 :: decodeOuts decode (decode s c).1 cs

/-- Decoder state after a list of byte chunks. -/
def decodeFinal {σ : Type} (decode : σ → List Nat → σ × List Char) :
    σ → List (List Nat) → σ
  | s, [] => s
  | s, c :: cs => decodeFinal decode (decode s c).1 cs

/-- Byte-level transform steps (cli.ts lines 635-652): decode each chunk
with carried state, then run the frame-splitting transform on the text. -/
def feedAllBytes {σ : Type} (decode : σ → List Nat → σ × List Char)
    (T : List Char → List Char) :
    List (List Nat) → σ → List Char → List Char × σ × List Char
  | [], s, buf => ([], s, buf)
  | chunk :: rest, s, buf =>
    ((feedChunk T buf (decode s chunk).2).1
       ++ (feedAllBytes decode T rest (decode s chunk).1
            (feedChunk T buf (decode s chunk).2).2).1,
     (feedAllBytes decode T rest (decode s chunk).1
       (feedChunk T buf (decode s chunk).2).2).2)

/-- Byte-level pipeline with the flush step (cli.ts lines 653-662): the
flush first drains the decoder, then transforms any remaining text. -/
def processSseBytes {σ : Type} (decode : σ → List Nat → σ × List Char)
    (flushD : σ → List Char) (T : List Char → List Char) (s0 : σ)
    (chunks : List (List Nat)) : List Char :=
  (feedAllBytes decode T chunks s0 []).1
    ++ flushChunk T ((feedAllBytes decode T chunks s0 []).2.2
        ++ flushD (feedAllBytes decode T chunks s0 []).2.1)

theorem feedAllBytes_eq {σ : Type} (decode : σ → List Nat → σ × List Char)
    (T : List Char → List Char) :
    ∀ (chunks : List (List Nat)) (s : σ) (buf : List Char),
      feedAllBytes decode T chunks s buf
        = ((feedAll T (decodeOuts decode s chunks) buf).1,
           decodeFinal decode s chunks,
           (feedAll T (decodeOuts decode s chunks) buf).2)
  | [], s, buf => rfl
  | chunk :: rest, s, buf => by
    rw [show feedAllBytes decode T (chunk :: rest) s buf
        = ((feedChunk T buf (decode s chunk).2).1
             ++ (feedAllBytes decode T rest (decode s chunk).1
                  (feedChunk T buf (decode s chunk).2).2).1,
           (feedAllBytes decode T rest (decode s chunk).1
             (feedChunk T buf (decode s chunk).2).2).2) from rfl,
      feedAllBytes_eq decode T rest (decode s chunk).1
        (feedChunk T buf (decode s chunk).2).2]
    rfl

theorem decode_flatten {σ : Type} {decode : σ → List Nat → σ × List Char}
    (H : DecoderStreamContract decode) :
    ∀ (chunks : List (List Nat)) (s : σ),
      (decodeOuts decode s chunks).flatten = (decode s chunks.flatten).2
        ∧ decodeFinal decode s chunks = (decode s chunks.flatten).1
  | [], s => by
    simp [decodeOuts, decodeFinal, H.1 s]
  | c :: cs, s => by
    have ih := decode_flatten H cs (decode s c).1
    have hsplit := H.2 s c cs.flatten
    constructor
    · rw [show (decodeOuts decode s (c :: cs)).flatten
          = (decode s c).2 ++ (decodeOuts decode (decode s c).1 cs).flatten from rfl,
        ih.1, show (c :: cs).flatten = c ++ cs.flatten from rfl, hsplit]
    · rw [show decodeFinal decode s (c :: cs) = decodeFinal decode (decode s c).1 cs from rfl,
        ih.2, show (c :: cs).flatten = c ++ cs.flatten from rfl, hsplit]

/-- C8: for every SSE byte stream and every way of splitting it into chunks
(including splits inside a frame, inside a line, or inside a multi-byte
character), the concatenated output of the incremental transform fed the
chunks one at a time, with a final flush, equals the output of feeding the
whole stream as a single chunk — for any per-event transform and any decoder
satisfying the TextDecoder streaming contract. -/
theorem processSseBytes_chunk_invariant {σ : Type}
    (decode : σ → List Nat → σ × List Char) (flushD : σ → List Char)
    (T : List Char → List Char) (s0 : σ) (chunks : List (List Nat))
    (H : DecoderStreamContract decode) :
    processSseBytes decode flushD T s0 chunks
      = processSseBytes decode flushD T s0 [chunks.flatten] := by
  unfold processSseBytes
  rw [feedAllBytes_eq, feedAllBytes_eq]
  have hflat := decode_flatten H chunks s0
  have hsingle : decodeOuts decode s0 [chunks.flatten] = [(decode s0 chunks.flatten).2] := by
    simp [decodeOuts]
  have hfinal : decodeFinal decode s0 [chunks.flatten] = (decode s0 chunks.flatten).1 := by
    simp [decodeFinal]
  have hfeed : feedAll T (decodeOuts decode s0 chunks) []
      = feedAll T (decodeOuts decode s0 [chunks.flatten]) [] := by
    rw [hsingle]
    cases hchunks : chunks with
    | nil =>
      have h0 : decodeOuts decode s0 ([] : List (List Nat)) = [] := rfl
      rw [h0]
      have : (decode s0 (([] : List (List Nat))).flatten).2 = [] := by
        rw [show (([] : List (List Nat))).flatten = ([] : List Nat) from rfl, H.1 s0]
      rw [← hchunks] at this ⊢
      rw [hchunks] at this ⊢
      rw [this]
      simp [feedAll, feedChunk, split2NL]
    | cons c cs =>
      rw [feedAll_concat T (decodeOuts decode s0 (c :: cs)) []
          (by simp [decodeOuts]),
        feedAll_concat T [(decode s0 (c :: cs).flatten).2] [] (by simp)]
      rw [show ([(decode s0 (c :: cs).flatten).2] : List (List Char)).flatten
          = (decode s0 (c :: cs).flatten).2 from by simp]
      rw [← hchunks, hflat.1, hchunks]
  rw [hfeed, hfinal, hflat.2]

/-- Stateless ASCII decoder (a concrete instance of the decoder contract). -/
def asciiDecoder : Unit → List Nat → Unit × List Char :=
  fun _ bs => ((), bs.map Char.ofNat)

/-- C8 witness: invariance at a concrete two-chunk byte stream under the
ASCII decoder. -/
theorem processSseBytes_chunk_invariant_witness :
    processSseBytes asciiDecoder (fun _ => []) id ()
        [[100, 97, 116, 97, 58, 32], [97, 10, 10, 98]]
      = processSseBytes asciiDecoder (fun _ => []) id ()
        [([[100, 97, 116, 97, 58, 32], [97, 10, 10, 98]] : List (List Nat)).flatten] :=
  processSseBytes_chunk_invariant asciiDecoder (fun _ => []) id ()
    [[100, 97, 116, 97, 58, 32], [97, 10, 10, 98]]
    ⟨fun _ => rfl, fun s b1 b2 => by simp [asciiDecoder]⟩

/-! ## Request preparation (cli.ts prepareAntigravityRequest, for claim C10)

The large JSON body normalization (cli.ts lines 202-558) is only reached for
a non-empty string body; it is abstracted as the transformBody parameter
(everything around it — the URL match, header writes and the body guard — is
concrete), so the theorem below holds for every body transform. -/

/-- Model of Headers.delete. -/
def HttpHeaders.delete (h : HttpHeaders) (k : String) : HttpHeaders :=
  ⟨h.entries.filter (fun p => !(p.fst == lowerKey k))⟩

/-- RequestInfo: a URL string, or a Request object (not a string). -/
inductive RequestInfoM where
  | urlStr (s : String)
  | reqObject
deriving DecidableEq, Repr

/-- RequestInit.body: a string, or any non-string body (Blob, stream, ...). -/
inductive BodyVal where
  | strBody (s : String)
  | otherBody
deriving DecidableEq, Repr

/-- The RequestInit fields the modelled code reads or writes. -/
structure ReqInit where
  headers : HttpHeaders
  body : Option BodyVal
deriving DecidableEq, Repr, Inhabited

/-- Constants from constants.ts (not among the available sources): the
default endpoint and the fixed client headers. -/
structure AntigravityConsts where
  endpoint : String
  userAgent : String
  apiClient : String
  clientMetadata : String
deriving DecidableEq, Repr, Inhabited

/-- Model of isGenerativeLanguageRequest (cli.ts lines 67-69). -/
def isGenerativeLanguageRequest : RequestInfoM → Bool
  | .urlStr s => strIncludes s "generativelanguage.googleapis.com"
  | .reqObject => false

/-- Word character of the regex class backslash-w. -/
def isWordChar (c : Char) : Bool :=
  ('a' ≤ c && c ≤ 'z') || ('A' ≤ c && c ≤ 'Z') || isDigit c || c == '_'

/-- Attempt of the URL pattern (slash models slash capture-nonColon colon
capture-word) at one position. -/
def matchModelActionAt (l : List Char) : Option (String × String) :=
  if "/models/".data.isPrefixOf l then
    let rest := l.drop "/models/".data.length
    let modelPart := rest.takeWhile (fun c => !(c == ':'))
    if modelPart.isEmpty then none
    else
      match rest.drop modelPart.length with
      | ':' :: rest2 =>
        let actionPart := rest2.takeWhile isWordChar
        if actionPart.isEmpty then none else some (⟨modelPart⟩, ⟨actionPart⟩)
      | _ => none
  else none

/-- Left-to-right regex scan for the models/action pattern. -/
def findModelAction : List Char → Option (String × String)
  | [] => none
  | l@(_ :: rest) =>
    match matchModelActionAt l with
    | some r => some r
    | none => findModelAction rest

/-- JavaScript String.prototype.trim (ASCII whitespace subset). -/
def jsTrim (s : String) : String :=
  ⟨((s.data.dropWhile isJsWhitespace).reverse.dropWhile isJsWhitespace).reverse⟩

/-- Result of the abstracted body normalization (cli.ts lines 202-558): the
rewritten body, the tool-schema diagnostics, and the effective project id it
resolves (trimmed caller id or a synthesized placeholder). -/
structure BodyTransformResult where
  newBody : String
  toolDebugMissing : Nat
  toolDebugSummary : String
  toolDebugPayload : Option String
  projectIdOverride : Option String
deriving DecidableEq, Repr, Inhabited

/-- Everything the function returns (cli.ts lines 577-592). -/
structure PrepResult where
  request : RequestInfoM
  init : ReqInit
  streaming : Bool
  requestedModel : Option String
  effectiveModel : Option String
  projectId : Option String
  endpoint : Option String
  toolDebugMissing : Option Nat
  toolDebugSummary : Option String
  toolDebugPayload : Option String
deriving DecidableEq, Repr

/-- Final header writes and the returned record (cli.ts lines 565-592). -/
def finishPrepare (C : AntigravityConsts) (headers1 : HttpHeaders)
    (body : Option BodyVal) (streaming : Bool) (transformedUrl rawModel rawAction : String)
    (resolvedProjectId : String) (missing : Nat) (summary : String)
    (payload : Option String) : PrepResult :=
  let headers2 := if streaming then headers1.set "Accept" "text/event-stream" else headers1
  let headers3 := ((headers2.set "User-Agent" C.userAgent).set
    "X-Goog-Api-Client" C.apiClient).set "Client-Metadata" C.clientMetadata
  let headers4 := if missing > 0 then
    headers3.set "X-Opencode-Tools-Debug" (toString missing) else headers3
  { request := .urlStr transformedUrl, init := ⟨headers4, body⟩, streaming := streaming,
    requestedModel := some rawModel, effectiveModel := some rawModel,
    projectId := some resolvedProjectId, endpoint := some transformedUrl,
    toolDebugMissing := some missing, toolDebugSummary := some summary,
    toolDebugPayload := payload }

/-- Model of prepareAntigravityRequest (cli.ts lines 156-593): non-matching
requests pass through (with auth headers attached once the URL matches the
watched API); on a pattern match the URL is rewritten against the chosen
endpoint, and the body is rewritten only when it is a non-empty string (a
body that is absent, empty or not a string is forwarded unchanged). -/
def prepareAntigravityRequest (C : AntigravityConsts)
    (transformBody : String → Except String BodyTransformResult)
    (input : RequestInfoM) (init : Option ReqInit) (accessToken : String)
    (projectId : String) (endpointOverride : Option String) :
    Except String PrepResult :=
  let headers0 := match init with
    | some i => i.headers
    | none => ⟨[]⟩
  let body0 := match init with
    | some i => i.body
    | none => none
  let passthrough : PrepResult :=
    { request := input, init := ⟨headers0, body0⟩, streaming := false,
      requestedModel := none, effectiveModel := none, projectId := none,
      endpoint := none, toolDebugMissing := none, toolDebugSummary := none,
      toolDebugPayload := none }
  match input with
  | .reqObject => .ok passthrough
  | .urlStr u =>
    if strIncludes u "generativelanguage.googleapis.com" = false then .ok passthrough
    else
      let headers1 := (headers0.set "Authorization"
        ("Bearer " ++ accessToken)).delete "x-api-key"
      match findModelAction u.data with
      | none =>
        .ok { request := input, init := ⟨headers1, body0⟩, streaming := false,
              requestedModel := none, effectiveModel := none, projectId := none,
              endpoint := none, toolDebugMissing := none, toolDebugSummary := none,
              toolDebugPayload := none }
      | some (rawModel, rawAction) =>
        let streaming := rawAction == "streamGenerateContent"
        let transformedUrl := (endpointOverride.getD C.endpoint) ++ "/v1internal:"
          ++ rawAction ++ (if streaming then "?alt=sse" else "")
        match body0 with
        | some (.strBody s) =>
          if s = "" then
            .ok (finishPrepare C headers1 body0 streaming transformedUrl rawModel
              rawAction (jsTrim projectId) 0 "" none)
          else
            match transformBody s with
            | .error e => .error e
            | .ok r =>
              .ok (finishPrepare C headers1 (some (.strBody r.newBody)) streaming
                transformedUrl rawModel rawAction
                (r.projectIdOverride.getD (jsTrim projectId)) r.toolDebugMissing
                r.toolDebugSummary r.toolDebugPayload)
        | _ =>
          .ok (finishPrepare C headers1 body0 streaming transformedUrl rawModel
            rawAction (jsTrim projectId) 0 "" none)

theorem find?_filter_not_key (l : List (String × String)) (k k' : String)
    (hne : k' ≠ k) :
    (l.filter (fun p => !(p.fst == k))).find? (fun p => p.fst == k')
      = l.find? (fun p => p.fst == k') := by
  induction l with
  | nil => rfl
  | cons a rest ih =>
    by_cases hak : a.fst = k
    · have h1 : (a.fst == k) = true := beq_iff_eq.mpr hak
      have h2 : (a.fst == k') = false := by
        rw [beq_eq_false_iff_ne]
        rw [hak]
        exact fun h => hne h.symm
      simp [List.filter_cons, h1, List.find?_cons, h2, ih]
    · have h1 : (a.fst == k) = false := beq_eq_false_iff_ne.mpr hak
      by_cases hak' : a.fst = k'
      · have h2 : (a.fst == k') = true := beq_iff_eq.mpr hak'
        simp [List.filter_cons, h1, List.find?_cons, h2]
      · have h2 : (a.fst == k') = false := beq_eq_false_iff_ne.mpr hak'
        simp [List.filter_cons, h1, List.find?_cons, h2, ih]

theorem HttpHeaders.get?_set_self (h : HttpHeaders) (k v : String) :
    (h.set k v).get? k = some v := by
  unfold HttpHeaders.get? HttpHeaders.set
  rw [List.find?_append]
  have h1 : (h.entries.filter (fun p => !(p.fst == lowerKey k))).find?
      (fun p => p.fst == lowerKey k) = none := by
    apply List.find?_eq_none.mpr
    intro p hp
    have := (List.mem_filter.mp hp).2
    simpa using this
  rw [h1]
  simp [List.find?_cons]

theorem HttpHeaders.get?_set_ne (h : HttpHeaders) (k v k' : String)
    (hne : lowerKey k' ≠ lowerKey k) :
    (h.set k v).get? k' = h.get? k' := by
  unfold HttpHeaders.get? HttpHeaders.set
  rw [List.find?_append]
  rw [find?_filter_not_key h.entries (lowerKey k) (lowerKey k') hne]
  have h2 : (([(lowerKey k, v)] : List (String × String))).find?
      (fun p => p.fst == lowerKey k') = none := by
    simp [List.find?_cons, beq_eq_false_iff_ne.mpr (fun hh => hne hh.symm)]
  cases hf : h.entries.find? (fun p => p.fst == lowerKey k') with
  | none => simp [hf, h2]
  | some x => simp [hf]

theorem HttpHeaders.get?_delete_ne (h : HttpHeaders) (k k' : String)
    (hne : lowerKey k' ≠ lowerKey k) :
    (h.delete k).get? k' = h.get? k' := by
  unfold HttpHeaders.get? HttpHeaders.delete
  rw [find?_filter_not_key h.entries (lowerKey k) (lowerKey k') hne]

theorem finishPrepare_spec (C : AntigravityConsts) (headers1 : HttpHeaders)
    (body : Option BodyVal) (streaming : Bool) (url m a pid : String)
    (payload : Option String) :
    (finishPrepare C headers1 body streaming url m a pid 0 "" payload).init.body = body
    ∧ (finishPrepare C headers1 body streaming url m a pid 0 ""
        payload).init.headers.get? "Authorization" = headers1.get? "Authorization"
    ∧ (finishPrepare C headers1 body streaming url m a pid 0 ""
        payload).init.headers.get? "User-Agent" = some C.userAgent
    ∧ (finishPrepare C headers1 body streaming url m a pid 0 ""
        payload).init.headers.get? "X-Goog-Api-Client" = some C.apiClient
    ∧ (finishPrepare C headers1 body streaming url m a pid 0 ""
        payload).init.headers.get? "Client-Metadata" = some C.clientMetadata
    ∧ (finishPrepare C headers1 body streaming url m a pid 0 "" payload).request
        = .urlStr url
    ∧ (finishPrepare C headers1 body streaming url m a pid 0 "" payload).streaming
        = streaming := by
  unfold finishPrepare
  simp only [gt_iff_lt, Nat.lt_irrefl, if_false]
  refine ⟨by trivial, ?_, ?_, ?_, ?_, by trivial, by trivial⟩
  · rw [HttpHeaders.get?_set_ne _ _ _ _ (by decide),
      HttpHeaders.get?_set_ne _ _ _ _ (by decide),
      HttpHeaders.get?_set_ne _ _ _ _ (by decide)]
    cases streaming with
    | false => rfl
    | true => exact HttpHeaders.get?_set_ne _ _ _ _ (by decide)
  · rw [HttpHeaders.get?_set_ne _ _ _ _ (by decide),
      HttpHeaders.get?_set_ne _ _ _ _ (by decide),
      HttpHeaders.get?_set_self]
  · rw [HttpHeaders.get?_set_ne _ _ _ _ (by decide), HttpHeaders.get?_set_self]
  · rw [HttpHeaders.get?_set_self]

/-- C10: on a watched URL matching the models/action pattern, a request body
that is absent, not a string, or the empty string is forwarded unchanged (no
wrapping or normalization — the body transform is never consulted), while
the URL is still rewritten against the chosen endpoint and the auth and
client headers are still set. -/
theorem prepare_skips_nonstring_body (C : AntigravityConsts)
    (transformBody : String → Except String BodyTransformResult)
    (initHeaders : HttpHeaders) (body0 : Option BodyVal)
    (accessToken projectId : String) (endpointOverride : Option String)
    (u m a : String)
    (hgl : strIncludes u "generativelanguage.googleapis.com" = true)
    (hmatch : findModelAction u.data = some (m, a))
    (hbody : body0 = none ∨ body0 = some .otherBody ∨ body0 = some (.strBody "")) :
    (prepareAntigravityRequest C transformBody (.urlStr u) (some ⟨initHeaders, body0⟩)
        accessToken projectId endpointOverride).map
      (fun r => (r.init.body, r.request, r.streaming,
        r.init.headers.get? "Authorization",
        r.init.headers.get? "User-Agent",
        r.init.headers.get? "X-Goog-Api-Client",
        r.init.headers.get? "Client-Metadata"))
    = .ok (body0,
        .urlStr ((endpointOverride.getD C.endpoint) ++ "/v1internal:" ++ a
          ++ (if (a == "streamGenerateContent") then "?alt=sse" else "")),
        (a == "streamGenerateContent"),
        some ("Bearer " ++ accessToken), some C.userAgent, some C.apiClient,
        some C.clientMetadata) := by
  have hauth : ((initHeaders.set "Authorization"
      ("Bearer " ++ accessToken)).delete "x-api-key").get? "Authorization"
      = some ("Bearer " ++ accessToken) := by
    rw [HttpHeaders.get?_delete_ne _ _ _ (by decide), HttpHeaders.get?_set_self]
  unfold prepareAntigravityRequest
  simp only [hgl, Bool.true_eq_false, if_false, hmatch]
  rcases hbody with rfl | rfl | rfl
  · obtain ⟨hb, hA, hUA, hX, hCM, hreq, hstr⟩ := finishPrepare_spec C
      ((initHeaders.set "Authorization" ("Bearer " ++ accessToken)).delete "x-api-key")
      none (a == "streamGenerateContent")
      ((endpointOverride.getD C.endpoint) ++ "/v1internal:" ++ a
        ++ (if (a == "streamGenerateContent") then "?alt=sse" else ""))
      m a (jsTrim projectId) none
    simp only [Except.map, hb, hA, hUA, hX, hCM, hreq, hstr, hauth]
  · obtain ⟨hb, hA, hUA, hX, hCM, hreq, hstr⟩ := finishPrepare_spec C
      ((initHeaders.set "Authorization" ("Bearer " ++ accessToken)).delete "x-api-key")
      (some .otherBody) (a == "streamGenerateContent")
      ((endpointOverride.getD C.endpoint) ++ "/v1internal:" ++ a
        ++ (if (a == "streamGenerateContent") then "?alt=sse" else ""))
      m a (jsTrim projectId) none
    simp only [Except.map, hb, hA, hUA, hX, hCM, hreq, hstr, hauth]
  · obtain ⟨hb, hA, hUA, hX, hCM, hreq, hstr⟩ := finishPrepare_spec C
      ((initHeaders.set "Authorization" ("Bearer " ++ accessToken)).delete "x-api-key")
      (some (.strBody "")) (a == "streamGenerateContent")
      ((endpointOverride.getD C.endpoint) ++ "/v1internal:" ++ a
        ++ (if (a == "streamGenerateContent") then "?alt=sse" else ""))
      m a (jsTrim projectId) none
    simp only [Except.map, if_true, hb, hA, hUA, hX, hCM, hreq, hstr, hauth]

/-- Concrete constants used by the C10 witness. -/
def sampleConsts : AntigravityConsts :=
  ⟨"https://cloudcode-pa.googleapis.com", "antigravity-ua", "antigravity-client",
   "antigravity-metadata"⟩

/-- Concrete watched URL used by the C10 witness. -/
def sampleUrl : String :=
  "https://generativelanguage.googleapis.com/v1beta/models/gemini-3-pro-high:generateContent"

/-- C10 witness: a matching request with an absent body keeps its body,
gets the rewritten URL, and carries the auth and client headers. -/
theorem prepare_skips_nonstring_body_witness :
    (prepareAntigravityRequest sampleConsts (fun _ => .error "unused")
        (.urlStr sampleUrl) (some ⟨⟨[]⟩, none⟩) "tok" "" none).map
      (fun r => (r.init.body, r.request, r.streaming,
        r.init.headers.get? "Authorization",
        r.init.headers.get? "User-Agent",
        r.init.headers.get? "X-Goog-Api-Client",
        r.init.headers.get? "Client-Metadata"))
    = .ok (none,
        .urlStr (((none : Option String)).getD sampleConsts.endpoint ++ "/v1internal:"
          ++ "generateContent"
          ++ (if (("generateContent" : String) == "streamGenerateContent") then "?alt=sse"
              else "")),
        (("generateContent" : String) == "streamGenerateContent"),
        some ("Bearer " ++ "tok"), some sampleConsts.userAgent,
        some sampleConsts.apiClient, some sampleConsts.clientMetadata) :=
  prepare_skips_nonstring_body sampleConsts (fun _ => .error "unused") ⟨[]⟩ none
    "tok" "" none sampleUrl "gemini-3-pro-high" "generateContent"
    (by decide) (by decide) (Or.inl rfl)

end Antigravity
